import Mathlib

/-!
Verification development for the floor-plan geometry-and-command core.

The TypeScript sources are shallowly embedded: JavaScript numbers are
idealised as rationals (`ℚ`), objects become structures, tagged unions
become inductives, optional fields become `Option`, and the impure
collaborators (`crypto.randomUUID`, `Date`, `Math.cos`/`Math.sin` for
ellipse sampling, and the external `polygon-clipping` boolean engine)
are threaded explicitly through an `Env` record so that every definition
stays a pure, executable function.
-/

namespace FloorPlan

/-- Coordinates of the plan model; JS numbers idealised as rationals. -/
abbrev Coord := ℚ

/-- A 2-D point `{ x, y }`. -/
structure Pt where
  x : Coord
  y : Coord
deriving DecidableEq, Repr

/-- `RectShape` payload: `{ x, y, width, height, rotation?, cornerRadius? }`. -/
structure Rect where
  x : Coord
  y : Coord
  width : Coord
  height : Coord
  rotation : Option Coord
  cornerRadius : Option Coord
deriving DecidableEq, Repr

/-- `EllipseShape` payload: `{ cx, cy, rx, ry }`. -/
structure Ellipse where
  cx : Coord
  cy : Coord
  rx : Coord
  ry : Coord
deriving DecidableEq, Repr

/-- The tagged shape union `rect | ellipse | polygon | multipolygon`.
Polygon carries optional `rotation` and optional `holes`; multipolygon
carries a parallel optional list of hole lists, as in the data model. -/
inductive Shape where
  | rect (r : Rect)
  | ellipse (e : Ellipse)
  | polygon (points : List Pt) (rotation : Option Coord) (holes : Option (List (List Pt)))
  | multipolygon (polygons : List (List Pt)) (holes : Option (List (List (List Pt))))
deriving DecidableEq, Repr

/-- An `Area`: id, name, fill, stroke, strokeWidth, shape, optional parentId. -/
structure Area where
  id : String
  name : String
  fill : String
  stroke : String
  strokeWidth : Coord
  shape : Shape
  parentId : Option String
deriving DecidableEq, Repr

/-- An `AreaGroup`: id, name, weak area-id references, optional flags. -/
structure AreaGroup where
  id : String
  name : String
  areaIds : List String
  locked : Option Bool
  visible : Option Bool
deriving DecidableEq, Repr

/-- The `units` enumeration `'cm' | 'm' | 'ft'`. -/
inductive PlanUnits where
  | cm
  | m
  | ft
deriving DecidableEq, Repr

/-- The `canvas` record: width, height, zoom and pan offset. -/
structure Canvas where
  width : Coord
  height : Coord
  zoom : Coord
  pan : Pt
deriving DecidableEq, Repr

/-- The `meta` record of a plan. -/
structure PlanMeta where
  name : String
  createdAt : String
  updatedAt : String
deriving DecidableEq, Repr

/-- The root `Plan` document (its `version` field is the literal `'1.0'`
and is therefore not stored; the exporter always writes it). -/
structure Plan where
  units : PlanUnits
  canvas : Canvas
  areas : List Area
  areaGroups : Option (List AreaGroup)
  meta : PlanMeta
deriving DecidableEq, Repr

/-- `Selection`: the set of selected area ids. -/
structure Selection where
  areaIds : List String
deriving DecidableEq, Repr

/-- `RectHandle`, the eight resize handles. -/
inductive Handle where
  | n
  | s
  | e
  | w
  | ne
  | nw
  | se
  | sw
deriving DecidableEq, Repr

/-- `handle.includes('e')` on the handle strings. -/
def Handle.hasE : Handle → Bool
  | .e | .ne | .se => true
  | _ => false

/-- `handle.includes('s')` on the handle strings. -/
def Handle.hasS : Handle → Bool
  | .s | .se | .sw => true
  | _ => false

/-- `handle.includes('w')` on the handle strings. -/
def Handle.hasW : Handle → Bool
  | .w | .nw | .sw => true
  | _ => false

/-- `handle.includes('n')` on the handle strings. -/
def Handle.hasN : Handle → Bool
  | .n | .ne | .nw => true
  | _ => false

/-- `PartitionDirection`. -/
inductive Direction where
  | horizontal
  | vertical
deriving DecidableEq, Repr

/-- `MirrorAxis` of the mirror command. -/
inductive MirrorAxis where
  | vertical
  | horizontal
deriving DecidableEq, Repr

/-! ## Geometry primitives (`domain/geometry.ts`) -/

/-- `MIN_SIZE = 0.25`. -/
def MIN_SIZE : Coord := 1/4

/-- `clamp(value, min, max) = Math.min(Math.max(value, min), max)`. -/
def clamp (v lo hi : Coord) : Coord := min (max v lo) hi

/-- `translatePolygon(points, delta)`. -/
def translatePolygon (pts : List Pt) (dx dy : Coord) : List Pt :=
  pts.map (fun p => ⟨p.x + dx, p.y + dy⟩)

/-- `moveRect(rect, delta, bounds)`: translate then clamp the origin so the
rect stays inside the canvas; the size is never altered. -/
def moveRect (r : Rect) (dx dy : Coord) (bounds : Canvas) : Rect :=
  { r with
    x := clamp (r.x + dx) 0 (max 0 (bounds.width - r.width))
    y := clamp (r.y + dy) 0 (max 0 (bounds.height - r.height)) }

/-- `applyRectResize(rect, handle, delta, bounds, min)`: handle-local edge
adjustment followed by the global re-clamp of size and origin. -/
def applyRectResize (r : Rect) (h : Handle) (dx dy : Coord) (bounds : Canvas)
    (minS : Coord) : Rect :=
  let maxW := bounds.width
  let maxH := bounds.height
  let w1 := if h.hasE then clamp (r.width + dx) minS (maxW - r.x) else r.width
  let h1 := if h.hasS then clamp (r.height + dy) minS (maxH - r.y) else r.height
  let xw :=
    if h.hasW then
      let nextX := clamp (r.x + dx) 0 (r.x + w1 - minS)
      (nextX, clamp (w1 - (nextX - r.x)) minS (maxW - nextX))
    else (r.x, w1)
  let yh :=
    if h.hasN then
      let nextY := clamp (r.y + dy) 0 (r.y + h1 - minS)
      (nextY, clamp (h1 - (nextY - r.y)) minS (maxH - nextY))
    else (r.y, h1)
  let w3 := max minS (min xw.2 maxW)
  let h3 := max minS (min yh.2 maxH)
  { r with
    x := clamp xw.1 0 (maxW - w3)
    y := clamp yh.1 0 (maxH - h3)
    width := w3
    height := h3 }

/-- `constrainRectToBounds(rect, bounds, min)`: clamp the origin first, then
the size to the remaining space. -/
def constrainRectToBounds (r : Rect) (bounds : Canvas) (minS : Coord) : Rect :=
  let x := clamp r.x 0 (max 0 (bounds.width - minS))
  let y := clamp r.y 0 (max 0 (bounds.height - minS))
  { r with
    x := x
    y := y
    width := clamp r.width minS (bounds.width - x)
    height := clamp r.height minS (bounds.height - y) }

/-- `splitRectEvenly(rect, count, direction)`: `count` equal slices computed
from the original rect (`size/count`), not accumulated. -/
def splitRectEvenly (r : Rect) (count : Nat) (dir : Direction) : List Rect :=
  if count ≤ 1 then [r]
  else
    match dir with
    | .vertical =>
      let slice := r.width / (count : Coord)
      (List.range count).map (fun (i : Nat) =>
        { x := r.x + slice * (i : Coord), y := r.y, width := slice, height := r.height
          rotation := none, cornerRadius := none })
    | .horizontal =>
      let slice := r.height / (count : Coord)
      (List.range count).map (fun (i : Nat) =>
        { x := r.x, y := r.y + slice * (i : Coord), width := r.width, height := slice
          rotation := none, cornerRadius := none })

/-- `rectsOverlap(a, b)`: strict open-interval overlap of two rects. -/
def rectsOverlap (a b : Rect) : Bool :=
  decide (a.x < b.x + b.width) && decide (a.x + a.width > b.x) &&
  decide (a.y < b.y + b.height) && decide (a.y + a.height > b.y)

/-- `polygonArea(points)`: shoelace formula, absolute value, halved;
zero when fewer than 3 points. -/
def polygonArea (pts : List Pt) : ℚ :=
  if pts.length < 3 then 0
  else |((pts.zip (pts.rotate 1)).foldl (fun s pq => s + (pq.1.x * pq.2.y - pq.2.x * pq.1.y)) 0)| / 2

/-- `polygonAreaWithHoles(points, holes)`: outer minus summed hole areas,
floored at zero. -/
def polygonAreaWithHoles (pts : List Pt) (holes : List (List Pt)) : ℚ :=
  max 0 (polygonArea pts - holes.foldl (fun acc h => acc + polygonArea h) 0)

/-- Bounding box record returned by `shapeBoundingBox`. -/
structure BBox where
  x : Coord
  y : Coord
  width : Coord
  height : Coord
deriving DecidableEq, Repr

/-- Min/max bounding box of a point list. The JS source folds
`Math.min`/`Math.max` over the coordinates; the empty case (where JS
produces infinities) is represented degenerately by zeros and is not
reached by any verified claim. -/
def ptsBBox (pts : List Pt) : BBox :=
  match pts with
  | [] => ⟨0, 0, 0, 0⟩
  | p :: rest =>
    let minX := rest.foldl (fun acc q => min acc q.x) p.x
    let maxX := rest.foldl (fun acc q => max acc q.x) p.x
    let minY := rest.foldl (fun acc q => min acc q.y) p.y
    let maxY := rest.foldl (fun acc q => max acc q.y) p.y
    ⟨minX, minY, maxX - minX, maxY - minY⟩

/-- `shapeBoundingBox(shape)`: closed form for rect/ellipse, min/max over
all ring points (holes included) otherwise. -/
def shapeBoundingBox : Shape → BBox
  | .rect r => ⟨r.x, r.y, r.width, r.height⟩
  | .ellipse e => ⟨e.cx - e.rx, e.cy - e.ry, e.rx * 2, e.ry * 2⟩
  | .polygon pts _ holes => ptsBBox (pts ++ (holes.getD []).flatten)
  | .multipolygon polys holes => ptsBBox (polys.flatten ++ ((holes.getD []).flatten).flatten)

/-- `ellipseToRect(ellipse)`: the bounding rectangle of an ellipse. -/
def ellipseToRect (e : Ellipse) : Rect :=
  ⟨e.cx - e.rx, e.cy - e.ry, e.rx * 2, e.ry * 2, none, none⟩

/-- `rectToEllipse(rect)`: the inscribed ellipse of a rectangle. -/
def rectToEllipse (r : Rect) : Ellipse :=
  ⟨r.x + r.width / 2, r.y + r.height / 2, r.width / 2, r.height / 2⟩

/-- JS truncating conversion (`parseInt`-style rounding toward zero) used
by the `%` remainder operator. -/
def jsTrunc (q : ℚ) : ℤ := if q < 0 then ⌈q⌉ else ⌊q⌋

/-- The JS `%` remainder: `a - b * trunc(a / b)` (same sign as `a`). -/
def jsMod (a b : ℚ) : ℚ := a - b * (jsTrunc (a / b) : ℚ)

/-- The snap-target list hard-coded in `snapAngle`. -/
def snapList : List ℚ := [0, 15, 30, 45, 90, 135, 180, 225, 270, 315]

/-- `snapAngle(angle, enabled)`: fold over `snapList` keeping the target with
the strictly smallest `Math.abs(((angle - s + 540) % 360) - 180)`. -/
def snapAngle (angle : ℚ) (enabled : Bool) : ℚ :=
  if !enabled then angle
  else
    (snapList.foldl
      (fun best s =>
        let delta := |jsMod (angle - s + 540) 360 - 180|
        if delta < best.2 then (s, delta) else best)
      (angle, 360)).1

/-! ## Identity and naming (`domain/naming.ts`) -/

/-- First maximal digit run in a character list, if any (the JS
`name.match(/(\d+)/)` capture). -/
def digitRun : List Char → Option (List Char)
  | [] => none
  | c :: rest => if c.isDigit then some (c :: rest.takeWhile Char.isDigit) else digitRun rest

/-- Decimal value of a digit run (`parseInt(match, 10)`). -/
def parseDigits (cs : List Char) : Nat :=
  cs.foldl (fun n c => n * 10 + (c.toNat - 48)) 0

/-- `nextAreaIndex(plan)`: one plus the largest number embedded in any
area name. -/
def nextAreaIndex (plan : Plan) : Nat :=
  (plan.areas.foldl
    (fun acc a =>
      match digitRun a.name.data with
      | some ds => Nat.max acc (parseDigits ds)
      | none => acc)
    0) + 1

/-- `defaultAreaName(plan)`. -/
def defaultAreaName (plan : Plan) : String :=
  "Area " ++ toString (nextAreaIndex plan)

/-- The suffix alphabet of `partitionNames`. -/
def suffixLetters : List Char := "ABCDEFGHIJKLMNOPQRSTUVWXYZ".data

/-- `base.replace(/\s+$/, '')`: drop trailing whitespace. -/
def trimTrailingWs (s : String) : String :=
  ⟨(s.data.reverse.dropWhile Char.isWhitespace).reverse⟩

/-- `partitionNames(base, count)`: `base` itself for a single partition,
otherwise `base A`, `base B`, … falling back to numbers past `Z`. -/
def partitionNames (base : String) (count : Nat) : List String :=
  if count ≤ 1 then [base]
  else
    (List.range count).map (fun idx =>
      let suffix :=
        match suffixLetters.get? idx with
        | some c => String.mk [c]
        | none => toString (idx + 1)
      trimTrailingWs base ++ " " ++ suffix)

/-- `findArea(plan, id)`: first area with the given id. -/
def findArea (plan : Plan) (id : String) : Option Area :=
  plan.areas.find? (fun a => a.id == id)

/-! ## Polygon set-operations adapter -/

/-- A ring handed to the boolean engine: a list of `[x, y]` pairs. -/
abbrev Ring := List (Coord × Coord)

/-- A polygon for the engine: outer ring followed by hole rings. -/
abbrev PolyRings := List Ring

/-- The abstract external boolean-geometry capability
(`polygon-clipping`'s `union` and `difference`). Modelled as an opaque
record parameter: the core only orchestrates its inputs and outputs. -/
structure PolyOps where
  union : List PolyRings → List PolyRings
  difference : List PolyRings → List PolyRings → List PolyRings

/-- `closeRing(points)`: to pairs, duplicating the first point at the end
when the ring is not already closed. -/
def closeRing (pts : List Pt) : Ring :=
  let ring : Ring := pts.map (fun p => (p.x, p.y))
  match ring.head?, ring.getLast? with
  | some f, some l => if f = l then ring else ring ++ [f]
  | _, _ => ring

/-- `ringsToPoints(ring)`: drop an explicit closing point, back to `Pt`s. -/
def ringsToPoints (ring : Ring) : List Pt :=
  let trimmed :=
    match ring.head?, ring.getLast? with
    | some f, some l => if ring.length > 1 ∧ f = l then ring.dropLast else ring
    | _, _ => ring
  trimmed.map (fun q => ⟨q.1, q.2⟩)

/-- `shapeToPolygons(shape)`: rect becomes one closed 5-point ring; an
ellipse is sampled at 48 angles (the `circle` argument supplies the
cosine/sine pair of sample `i`, abstracting `Math.cos`/`Math.sin`);
polygon/multipolygon contribute their own rings plus hole rings. -/
def shapeToPolygons (circle : Nat → Coord × Coord) : Shape → List PolyRings
  | .rect r =>
    [[[(r.x, r.y), (r.x + r.width, r.y), (r.x + r.width, r.y + r.height),
       (r.x, r.y + r.height), (r.x, r.y)]]]
  | .ellipse e =>
    let points := (List.range 48).map (fun i =>
      let cs := circle i
      (⟨e.cx + cs.1 * e.rx, e.cy + cs.2 * e.ry⟩ : Pt))
    [[closeRing points]]
  | .polygon pts _ holes =>
    [closeRing pts :: (holes.getD []).map closeRing]
  | .multipolygon polys holes =>
    polys.enum.map (fun ip =>
      closeRing ip.2 ::
        (match holes with
         | none => []
         | some hl => ((hl.get? ip.1).getD []).map closeRing))

/-- The exact rational value of the IEEE-754 double `Math.PI`. -/
def mathPi : ℚ := 884279719003555 / 281474976710656

/-- `shapeArea(shape)`: rectangle area, `π·rx·ry` for ellipses, shoelace
with holes for polygons, summed per component for multipolygons. -/
def shapeArea : Shape → ℚ
  | .rect r => |r.width * r.height|
  | .ellipse e => |mathPi * e.rx * e.ry|
  | .polygon pts _ holes => polygonAreaWithHoles pts (holes.getD [])
  | .multipolygon polys holes =>
    (polys.enum.foldl
      (fun acc ip =>
        acc + polygonAreaWithHoles ip.2
          (match holes with
           | none => []
           | some hl => (hl.get? ip.1).getD []))
      0)

/-! ## The command surface (`domain/types.ts` command payloads) -/

/-- The closed tagged command set of the interpreter, with the payload
fields of `CommandPayloads`. -/
inductive Command where
  | planCreate (width height : Coord) (units : PlanUnits) (name : Option String)
  | planResizeBoundary (width height : Option Coord)
  | planSetViewport (zoom : Option Coord) (pan : Option Pt)
  | planLoad (plan : Plan)
  | areaCreate (rect : Rect) (partitions : Option Nat) (direction : Option Direction)
      (fill stroke name parentId : Option String)
  | areaCreatePolygon (points : List Pt) (fill stroke name : Option String)
  | areaCreateEllipse (cx cy rx ry : Coord) (fill stroke name : Option String)
  | areaPaste (areas : List Area) (dx dy : Coord) (nameSuffix : Option String)
  | areaMove (id : String) (dx dy : Coord)
  | areaMovePolygon (id : String) (dx dy : Coord)
  | areaResize (id : String) (handle : Handle) (dx dy : Coord)
  | areaSetRect (id : String) (rect : Rect)
  | areaSetEllipse (id : String) (ellipse : Ellipse)
  | areaSetRectBatch (updates : List (String × Rect))
  | areaSetPolygon (id : String) (points : List Pt)
  | areaSetMultipolygon (id : String) (polygons : List (List Pt))
  | areaRename (id : String) (name : String)
  | areaRecolor (id : String) (fill : String)
  | areaDelete (id : String)
  | areaMirror (id : String) (axis : MirrorAxis)
  | areaSubtract (ids : List String)
  | areaDivide (id : String) (partitions : Nat) (direction : Option Direction)
  | areaMerge (ids : List String) (name fill stroke : Option String)
  | groupCreate (name : String) (areaIds : List String)
  | groupDelete (id : String)
  | groupVisibility (id : String) (visible : Bool)
  | areaConvertToPolygon (ids : List String) (name fill stroke : Option String)
  | areaMoveMulti (ids : List String) (dx dy : Coord)
  | selectionSet (sel : Selection)
deriving DecidableEq, Repr

/-- The `command.type` tag string (the description fallback in the store). -/
def cmdTypeStr : Command → String
  | .planCreate .. => "plan/create"
  | .planResizeBoundary .. => "plan/resize-boundary"
  | .planSetViewport .. => "plan/set-viewport"
  | .planLoad .. => "plan/load"
  | .areaCreate .. => "area/create"
  | .areaCreatePolygon .. => "area/create-polygon"
  | .areaCreateEllipse .. => "area/create-ellipse"
  | .areaPaste .. => "area/paste"
  | .areaMove .. => "area/move"
  | .areaMovePolygon .. => "area/move-polygon"
  | .areaResize .. => "area/resize"
  | .areaSetRect .. => "area/set-rect"
  | .areaSetEllipse .. => "area/set-ellipse"
  | .areaSetRectBatch .. => "area/set-rect-batch"
  | .areaSetPolygon .. => "area/set-polygon"
  | .areaSetMultipolygon .. => "area/set-multipolygon"
  | .areaRename .. => "area/rename"
  | .areaRecolor .. => "area/recolor"
  | .areaDelete .. => "area/delete"
  | .areaMirror .. => "area/mirror"
  | .areaSubtract .. => "area/subtract"
  | .areaDivide .. => "area/divide"
  | .areaMerge .. => "area/merge"
  | .groupCreate .. => "group/create"
  | .groupDelete .. => "group/delete"
  | .groupVisibility .. => "group/visibility"
  | .areaConvertToPolygon .. => "area/convert-to-polygon"
  | .areaMoveMulti .. => "area/move-multi"
  | .selectionSet .. => "selection/set"

/-- The result record of `performCommand`. -/
structure CmdResult where
  plan : Plan
  selection : Option Selection
  description : Option String
deriving DecidableEq, Repr

/-- The impure collaborators of one interpreter invocation: the boolean
engine, the `crypto.randomUUID` draw sequence, the `Date` ISO timestamp,
and the cosine/sine samples used for ellipse rings. -/
structure Env where
  ops : PolyOps
  fresh : Nat → String
  now : String
  circle : Nat → Coord × Coord

/-- Replace the first element satisfying `pred` (the find-then-mutate
pattern used throughout the interpreter). -/
def updateFirst (pred : α → Bool) (f : α → α) : List α → List α
  | [] => []
  | a :: rest => if pred a then f a :: rest else a :: updateFirst pred f rest

/-- `ensureUpdated`: stamp `meta.updatedAt` with the current time. -/
def ensureUpdated (now : String) (plan : Plan) : Plan :=
  { plan with meta := { plan.meta with updatedAt := now } }

/-- The no-op result `{ plan }`: the original plan, no selection, no
description. -/
def noop (plan : Plan) : CmdResult := ⟨plan, none, none⟩

/-- `mirrorPoint(point, axis, center)`. -/
def mirrorPoint (axis : MirrorAxis) (center : Pt) (p : Pt) : Pt :=
  match axis with
  | .vertical => ⟨center.x * 2 - p.x, p.y⟩
  | .horizontal => ⟨p.x, center.y * 2 - p.y⟩

/-- Fold picking the area with the strictly largest `shapeArea`, keeping
the earlier element on ties (`targets.reduce` in `subtractAreas`). -/
def pickLargest (first : Area) (rest : List Area) : Area :=
  rest.foldl
    (fun largest a => if shapeArea a.shape > shapeArea largest.shape then a else largest)
    first

/-- Post-processing of a boolean-engine result: keep components whose
outer ring has at least 3 points, as `(outer points, hole point lists)`. -/
def processRings (result : List PolyRings) : List (List Pt × List (List Pt)) :=
  result.filterMap (fun poly =>
    match poly with
    | [] => none
    | ring :: holeRings =>
      if ring.length ≥ 3 then some (ringsToPoints ring, holeRings.map ringsToPoints)
      else none)

/-- Build the output shape from processed components: a single polygon
(with its holes) or a multipolygon. -/
def shapeOfProcessed (processed : List (List Pt × List (List Pt))) : Shape :=
  match processed with
  | [single] => .polygon single.1 none (some single.2)
  | _ => .multipolygon (processed.map (·.1)) (some (processed.map (·.2)))

/-- One step of the `area/paste` loop: translate the shape (rects are
re-clamped, degenerate polygons are skipped) and append the pasted copy
with a fresh id; the accumulator is `(pasted areas, created ids)`. -/
def pasteStep (env : Env) (canvas : Canvas) (dx dy : Coord) (nameSuffix : Option String)
    (acc : List Area × List String) (area : Area) : List Area × List String :=
  let shapeOpt : Option Shape :=
    match area.shape with
    | .rect r =>
      some (.rect (constrainRectToBounds { r with x := r.x + dx, y := r.y + dy }
        canvas MIN_SIZE))
    | .ellipse e => some (.ellipse { e with cx := e.cx + dx, cy := e.cy + dy })
    | .polygon pts _ holes =>
      let points := translatePolygon pts dx dy
      if points.length < 3 then none
      else some (.polygon points none
        (holes.map (fun hl => hl.map (fun hole => translatePolygon hole dx dy))))
    | .multipolygon polys holes =>
      let polygons := polys.map (fun poly => translatePolygon poly dx dy)
      if polygons.isEmpty || polygons.any (fun poly => poly.length < 3) then none
      else some (.multipolygon polygons
        (holes.map (fun outer => outer.map (fun hl =>
          hl.map (fun hole => translatePolygon hole dx dy)))))
  match shapeOpt with
  | none => acc
  | some shape =>
    let id := env.fresh acc.2.length
    let name :=
      match nameSuffix with
      | some sfx => if sfx = "" then area.name else area.name ++ " " ++ sfx
      | none => area.name
    (acc.1 ++ [⟨id, name, area.fill, area.stroke, area.strokeWidth, shape, none⟩],
     acc.2 ++ [id])

/-! ## The command interpreter (`domain/commands.ts`, `performCommand`) -/

/-- `performCommand(plan, command)`: the central pure state transition.
Every case mirrors the corresponding handler of the source interpreter;
deep clones become value copies. -/
def performCommand (env : Env) (plan : Plan) (cmd : Command) : CmdResult :=
  match cmd with
  | .planCreate width height units name =>
    ⟨{ units := units
       canvas := ⟨width, height, 1, ⟨0, 0⟩⟩
       areas := []
       areaGroups := none
       meta := ⟨name.getD "New Plan", env.now, env.now⟩ },
     some ⟨[]⟩, some "Create plan"⟩
  | .planResizeBoundary width height =>
    let p1 :=
      match width with
      | some w => { plan with canvas := { plan.canvas with width := max w (1/2) } }
      | none => plan
    let p2 :=
      match height with
      | some h => { p1 with canvas := { p1.canvas with height := max h (1/2) } }
      | none => p1
    ⟨ensureUpdated env.now p2, none, some "Resize plan"⟩
  | .planSetViewport zoom pan =>
    let p1 :=
      match zoom with
      | some z => { plan with canvas := { plan.canvas with zoom := max (1/10) z } }
      | none => plan
    let p2 :=
      match pan with
      | some pt => { p1 with canvas := { p1.canvas with pan := pt } }
      | none => p1
    ⟨ensureUpdated env.now p2, none, some "Viewport change"⟩
  | .planLoad loaded => ⟨loaded, some ⟨[]⟩, some "Load plan"⟩
  | .areaCreate rect partitions direction fill stroke name parentId =>
    let baseName := name.getD (defaultAreaName plan)
    let parts := max 1 (partitions.getD 1)
    let dir := direction.getD (if rect.width ≥ rect.height then .vertical else .horizontal)
    let rects := splitRectEvenly (constrainRectToBounds rect plan.canvas MIN_SIZE) parts dir
    let names := partitionNames baseName parts
    let newAreas := rects.enum.map (fun ir =>
      ({ id := env.fresh ir.1
         name := (names.get? ir.1).getD (baseName ++ " " ++ toString (ir.1 + 1))
         fill := fill.getD "#bfdbfe"
         stroke := stroke.getD "#1d4ed8"
         strokeWidth := 1/25
         shape := .rect ir.2
         parentId := parentId } : Area))
    ⟨ensureUpdated env.now { plan with areas := plan.areas ++ newAreas },
     some ⟨newAreas.map (·.id)⟩, some "Create area"⟩
  | .areaCreatePolygon points fill stroke name =>
    if points.length < 3 then noop plan
    else
      let id := env.fresh 0
      let a : Area :=
        ⟨id, name.getD (defaultAreaName plan), fill.getD "#d8b4fe", stroke.getD "#6b21a8",
         1/25, .polygon points none none, none⟩
      ⟨ensureUpdated env.now { plan with areas := plan.areas ++ [a] },
       some ⟨[id]⟩, some "Create polygon"⟩
  | .areaCreateEllipse cx cy rx ry fill stroke name =>
    let id := env.fresh 0
    let a : Area :=
      ⟨id, name.getD (defaultAreaName plan), fill.getD "#fecaca", stroke.getD "#dc2626",
       1/25, .ellipse ⟨cx, cy, rx, ry⟩, none⟩
    ⟨ensureUpdated env.now { plan with areas := plan.areas ++ [a] },
     some ⟨[id]⟩, some "Create ellipse"⟩
  | .areaPaste pasted dx dy nameSuffix =>
    let res := pasted.foldl (pasteStep env plan.canvas dx dy nameSuffix) ([], [])
    if res.2.isEmpty then noop plan
    else
      ⟨ensureUpdated env.now { plan with areas := plan.areas ++ res.1 },
       some ⟨res.2⟩, some "Paste areas"⟩
  | .areaMove id dx dy =>
    match findArea plan id with
    | none => noop plan
    | some target =>
      match target.shape with
      | .rect r =>
        ⟨ensureUpdated env.now
           { plan with areas := updateFirst (fun a => a.id == id) (fun a => { a with shape := .rect (moveRect r dx dy plan.canvas) }) plan.areas },
         some ⟨[id]⟩, some "Move area"⟩
      | _ => noop plan
  | .areaMovePolygon id dx dy =>
    match findArea plan id with
    | none => noop plan
    | some target =>
      match target.shape with
      | .polygon pts rot holes =>
        let newShape : Shape := .polygon (translatePolygon pts dx dy) rot
          (holes.map (fun hl => hl.map (fun hole => translatePolygon hole dx dy)))
        ⟨ensureUpdated env.now
           { plan with areas := updateFirst (fun a => a.id == id) (fun a => { a with shape := newShape }) plan.areas },
         some ⟨[id]⟩, some "Move polygon"⟩
      | .multipolygon polys holes =>
        let newShape : Shape := .multipolygon (polys.map (fun poly => translatePolygon poly dx dy))
          (holes.map (fun outer => outer.map (fun hl =>
            hl.map (fun hole => translatePolygon hole dx dy))))
        ⟨ensureUpdated env.now
           { plan with areas := updateFirst (fun a => a.id == id) (fun a => { a with shape := newShape }) plan.areas },
         some ⟨[id]⟩, some "Move polygon"⟩
      | _ => noop plan
  | .areaResize id handle dx dy =>
    match findArea plan id with
    | none => noop plan
    | some target =>
      match target.shape with
      | .rect r =>
        ⟨ensureUpdated env.now
           { plan with areas := updateFirst (fun a => a.id == id) (fun a => { a with shape := .rect (applyRectResize r handle dx dy plan.canvas MIN_SIZE) }) plan.areas },
         some ⟨[id]⟩, some "Resize area"⟩
      | _ => noop plan
  | .areaSetRect id rect =>
    match findArea plan id with
    | none => noop plan
    | some target =>
      match target.shape with
      | .rect _ =>
        ⟨ensureUpdated env.now
           { plan with areas := updateFirst (fun a => a.id == id) (fun a => { a with shape := .rect (constrainRectToBounds rect plan.canvas MIN_SIZE) }) plan.areas },
         some ⟨[id]⟩, some "Update area"⟩
      | _ => noop plan
  | .areaSetEllipse id ellipse =>
    match findArea plan id with
    | none => noop plan
    | some target =>
      match target.shape with
      | .ellipse _ =>
        ⟨ensureUpdated env.now
           { plan with areas := updateFirst (fun a => a.id == id) (fun a => { a with shape := .ellipse ellipse }) plan.areas },
         some ⟨[id]⟩, some "Edit ellipse"⟩
      | _ => noop plan
  | .areaSetRectBatch updates =>
    let validUpdates := updates.filter (fun u =>
      match findArea plan u.1 with
      | some a => match a.shape with | .rect _ => true | _ => false
      | none => false)
    let newAreas := validUpdates.foldl
      (fun areas u =>
        updateFirst (fun a => a.id == u.1) (fun a =>
            match a.shape with
            | .rect _ => { a with shape := .rect (constrainRectToBounds u.2 plan.canvas MIN_SIZE) }
            | _ => a)
          areas)
      plan.areas
    ⟨ensureUpdated env.now { plan with areas := newAreas },
     some ⟨validUpdates.map (·.1)⟩, some "Update areas"⟩
  | .areaSetPolygon id points =>
    match findArea plan id with
    | none => noop plan
    | some target =>
      match target.shape with
      | .polygon _ _ holes =>
        ⟨ensureUpdated env.now
           { plan with areas := updateFirst (fun a => a.id == id) (fun a => { a with shape := .polygon points none holes }) plan.areas },
         some ⟨[id]⟩, some "Edit polygon"⟩
      | .rect _ =>
        ⟨ensureUpdated env.now
           { plan with areas := updateFirst (fun a => a.id == id) (fun a => { a with shape := .polygon points none none }) plan.areas },
         some ⟨[id]⟩, some "Edit polygon"⟩
      | _ => noop plan
  | .areaSetMultipolygon id polygons =>
    match findArea plan id with
    | none => noop plan
    | some target =>
      match target.shape with
      | .multipolygon _ holes =>
        ⟨ensureUpdated env.now
           { plan with areas := updateFirst (fun a => a.id == id) (fun a => { a with shape := .multipolygon polygons holes }) plan.areas },
         some ⟨[id]⟩, some "Edit multipolygon"⟩
      | _ => noop plan
  | .areaRename id name =>
    match findArea plan id with
    | none => noop plan
    | some _ =>
      ⟨ensureUpdated env.now
         { plan with areas := updateFirst (fun a => a.id == id) (fun a => { a with name := name }) plan.areas },
       some ⟨[id]⟩, some "Rename area"⟩
  | .areaRecolor id fill =>
    match findArea plan id with
    | none => noop plan
    | some _ =>
      ⟨ensureUpdated env.now
         { plan with areas := updateFirst (fun a => a.id == id) (fun a => { a with fill := fill }) plan.areas },
       some ⟨[id]⟩, some "Recolor area"⟩
  | .areaDelete id =>
    ⟨ensureUpdated env.now { plan with areas := plan.areas.filter (fun a => a.id != id) },
     some ⟨[]⟩, some "Delete area"⟩
  | .areaMirror id axis =>
    match findArea plan id with
    | none => noop plan
    | some target =>
      let newShape : Shape :=
        match target.shape with
        | .polygon pts rot holes =>
          let bbox := shapeBoundingBox (.polygon pts rot holes)
          let center : Pt := ⟨bbox.x + bbox.width / 2, bbox.y + bbox.height / 2⟩
          .polygon (pts.map (mirrorPoint axis center)) rot
            (holes.map (fun hl => hl.map (fun hole => hole.map (mirrorPoint axis center))))
        | .multipolygon polys holes =>
          let bbox := shapeBoundingBox (.multipolygon polys holes)
          let center : Pt := ⟨bbox.x + bbox.width / 2, bbox.y + bbox.height / 2⟩
          .multipolygon (polys.map (fun poly => poly.map (mirrorPoint axis center)))
            (holes.map (fun outer => outer.map (fun hl =>
              hl.map (fun hole => hole.map (mirrorPoint axis center)))))
        | .rect r => .rect r
        | .ellipse e => .ellipse e
      ⟨ensureUpdated env.now
         { plan with areas := updateFirst (fun a => a.id == id) (fun a => { a with shape := newShape }) plan.areas },
       some ⟨[id]⟩, some "Mirror area"⟩
  | .areaSubtract ids =>
    if ids.length < 2 then noop plan
    else
      match ids.filterMap (findArea plan) with
      | [] => noop plan
      | [_] => noop plan
      | t :: ts =>
        let targets := t :: ts
        let base := pickLargest t ts
        let cutters := targets.filter (fun a => a.id != base.id)
        let subject := shapeToPolygons env.circle base.shape
        let clips := cutters.flatMap (fun a => shapeToPolygons env.circle a.shape)
        let processed := processRings (env.ops.difference subject clips)
        if processed.isEmpty then
          ⟨ensureUpdated env.now
             { plan with areas := plan.areas.filter (fun a => !(ids.contains a.id)) },
           some ⟨[]⟩, some "Subtract areas"⟩
        else
          let kept := plan.areas.filter (fun a => a.id == base.id || !(ids.contains a.id))
          match findArea { plan with areas := kept } base.id with
          | none => noop plan
          | some _ =>
            ⟨ensureUpdated env.now
               { plan with areas := updateFirst (fun a => a.id == base.id) (fun a => { a with shape := shapeOfProcessed processed }) kept },
             some ⟨[base.id]⟩, some "Subtract areas"⟩
  | .areaDivide id partitions direction =>
    match findArea plan id with
    | none => noop plan
    | some baseArea =>
      let parts := max 2 partitions
      let dir := direction.getD
        (match baseArea.shape with
         | .rect r => if r.width ≥ r.height then .vertical else .horizontal
         | _ => .horizontal)
      let remaining := plan.areas.filter (fun a => a.id != id)
      let names := partitionNames baseArea.name parts
      let created : List Area :=
        match baseArea.shape with
        | .rect r =>
          (splitRectEvenly r parts dir).enum.map (fun ir =>
            ⟨env.fresh ir.1, (names.get? ir.1).getD "", baseArea.fill, baseArea.stroke,
             baseArea.strokeWidth, .rect ir.2, some baseArea.id⟩)
        | other =>
          let bbox := shapeBoundingBox other
          let slices := splitRectEvenly ⟨bbox.x, bbox.y, bbox.width, bbox.height, none, none⟩
            parts dir
          slices.enum.map (fun ir =>
            let rect := ir.2
            let poly : Shape := .polygon
              [⟨rect.x, rect.y⟩, ⟨rect.x + rect.width, rect.y⟩,
               ⟨rect.x + rect.width, rect.y + rect.height⟩, ⟨rect.x, rect.y + rect.height⟩]
              none none
            ⟨env.fresh ir.1, (names.get? ir.1).getD "", baseArea.fill, baseArea.stroke,
             baseArea.strokeWidth, poly, some baseArea.id⟩)
      ⟨ensureUpdated env.now { plan with areas := remaining ++ created },
       some ⟨created.map (·.id)⟩, some "Divide area"⟩
  | .areaMerge ids name fill stroke =>
    if ids.length < 2 then noop plan
    else
      match ids.filterMap (findArea plan) with
      | [] => noop plan
      | [_] => noop plan
      | t :: ts =>
        let targets := t :: ts
        let inputs := targets.flatMap (fun a => shapeToPolygons env.circle a.shape)
        let processed := processRings (env.ops.union inputs)
        if processed.isEmpty then noop plan
        else
          let newId := env.fresh 0
          let merged : Area :=
            ⟨newId, name.getD "Area", fill.getD t.fill, stroke.getD t.stroke, t.strokeWidth,
             shapeOfProcessed processed, none⟩
          ⟨ensureUpdated env.now
             { plan with areas := plan.areas.filter (fun a => !(ids.contains a.id)) ++ [merged] },
           some ⟨[newId]⟩, some "Merge areas"⟩
  | .areaConvertToPolygon ids name fill stroke =>
    if ids.length < 1 then noop plan
    else
      match ids.filterMap (findArea plan) with
      | [] => noop plan
      | t :: ts =>
        let targets := t :: ts
        let polygons := targets.flatMap (fun a =>
          match a.shape with
          | .rect r =>
            [[(⟨r.x, r.y⟩ : Pt), ⟨r.x + r.width, r.y⟩, ⟨r.x + r.width, r.y + r.height⟩,
              ⟨r.x, r.y + r.height⟩]]
          | .ellipse e =>
            let rect := ellipseToRect e
            [(List.range 48).map (fun i =>
              let cs := env.circle i
              (⟨rect.x + rect.width / 2 + cs.1 * rect.width / 2,
                rect.y + rect.height / 2 + cs.2 * rect.height / 2⟩ : Pt))]
          | .polygon pts _ _ => [pts]
          | .multipolygon polys _ => polys)
        if polygons.isEmpty then noop plan
        else
          let newId := env.fresh 0
          let newShape : Shape :=
            match polygons with
            | [single] => .polygon single none none
            | _ => .multipolygon polygons none
          let converted : Area :=
            ⟨newId, name.getD ("Polygon " ++ toString targets.length), fill.getD t.fill,
             stroke.getD t.stroke, t.strokeWidth, newShape, none⟩
          ⟨ensureUpdated env.now
             { plan with areas := plan.areas.filter (fun a => !(ids.contains a.id)) ++ [converted] },
           some ⟨[newId]⟩, some "Convert to polygon"⟩
  | .groupCreate name areaIds =>
    let group : AreaGroup := ⟨env.fresh 0, name, areaIds, none, some true⟩
    ⟨ensureUpdated env.now
       { plan with areaGroups := some ((plan.areaGroups.getD []) ++ [group]) },
     some ⟨areaIds⟩, some "Create group"⟩
  | .groupDelete id =>
    ⟨ensureUpdated env.now
       { plan with areaGroups := some ((plan.areaGroups.getD []).filter (fun g => g.id != id)) },
     none, some "Delete group"⟩
  | .groupVisibility id visible =>
    ⟨ensureUpdated env.now
       { plan with areaGroups := some ((plan.areaGroups.getD []).map (fun g =>
           if g.id == id then { g with visible := some visible } else g)) },
     none, some "Toggle group visibility"⟩
  | .areaMoveMulti ids dx dy =>
    let newAreas := ids.foldl
      (fun areas id =>
        updateFirst (fun a => a.id == id) (fun a =>
            match a.shape with
            | .rect r => { a with shape := .rect (moveRect r dx dy plan.canvas) }
            | .ellipse e => { a with shape := .ellipse { e with cx := e.cx + dx, cy := e.cy + dy } }
            | .polygon pts rot holes =>
              let moved : Shape := .polygon (translatePolygon pts dx dy) rot
                (holes.map (fun hl => hl.map (fun hole => translatePolygon hole dx dy)))
              { a with shape := moved }
            | .multipolygon polys holes =>
              let moved : Shape := .multipolygon (polys.map (fun poly => translatePolygon poly dx dy))
                (holes.map (fun outer => outer.map (fun hl =>
                  hl.map (fun hole => translatePolygon hole dx dy))))
              { a with shape := moved })
          areas)
      plan.areas
    ⟨ensureUpdated env.now { plan with areas := newAreas },
     some ⟨ids⟩, some "Move areas"⟩
  | .selectionSet sel => ⟨plan, some sel, some "Select"⟩

/-! ## History manager (`store/usePlanStore.ts`) -/

/-- A `CommandRecord`: the command, its description, the full `before` and
`after` plan snapshots, and the `Date.now()` timestamp. -/
structure HistoryRecord where
  cmd : Command
  description : String
  before : Plan
  after : Plan
  timestamp : Nat
deriving DecidableEq, Repr

/-- The `HistoryStack`: bounded undo list (newest last) and redo list. -/
structure HistoryStack where
  undo : List HistoryRecord
  redo : List HistoryRecord
deriving DecidableEq, Repr

/-- The store state relevant to the history manager. -/
structure StoreState where
  plan : Plan
  selection : Selection
  history : HistoryStack
deriving DecidableEq, Repr

/-- `list.slice(-n)`: the last `n` elements. -/
def takeLast (n : Nat) (l : List α) : List α := l.drop (l.length - n)

/-- `pushHistory(history, record)`: append the record, keep the most
recent 100 undo entries, clear redo. -/
def pushHistory (h : HistoryStack) (r : HistoryRecord) : HistoryStack :=
  ⟨takeLast 100 (h.undo ++ [r]), []⟩

/-- The per-call impure context of one `apply`: the interpreter `Env` plus
the `Date.now()` timestamp for the record. -/
structure CallCtx where
  env : Env
  ts : Nat

/-- The store's `apply`: run the interpreter; when the plan is unchanged
(by deep value equality) only the selection may update; otherwise adopt
the new plan and selection and push a `CommandRecord`. -/
def applyCmd (c : CallCtx) (s : StoreState) (cmd : Command) : StoreState :=
  let before := s.plan
  let res := performCommand c.env s.plan cmd
  if res.plan = before then
    match res.selection with
    | some sel => { s with selection := sel }
    | none => s
  else
    { plan := res.plan
      selection := res.selection.getD s.selection
      history := pushHistory s.history
        ⟨cmd, res.description.getD (cmdTypeStr cmd), before, res.plan, c.ts⟩ }

/-- The store's `undo`: pop the last undo record (no-op when empty),
restore its `before` snapshot, push the record on the front of redo and
clear the selection. -/
def undoStep (s : StoreState) : StoreState :=
  match s.history.undo.getLast? with
  | none => s
  | some last =>
    { plan := last.before
      selection := ⟨[]⟩
      history := ⟨s.history.undo.dropLast, last :: s.history.redo⟩ }

/-- The store's `redo`: pop the first redo record (no-op when empty),
restore its `after` snapshot, append it to undo and clear the selection. -/
def redoStep (s : StoreState) : StoreState :=
  match s.history.redo with
  | [] => s
  | next :: rest =>
    { plan := next.after
      selection := ⟨[]⟩
      history := ⟨s.history.undo ++ [next], rest⟩ }

/-- Iterate `undo` `n` times. -/
def undoN : Nat → StoreState → StoreState
  | 0, s => s
  | n + 1, s => undoN n (undoStep s)

/-- Iterate `redo` `n` times. -/
def redoN : Nat → StoreState → StoreState
  | 0, s => s
  | n + 1, s => redoN n (redoStep s)

/-- Apply a list of commands (each with its own impure call context). -/
def applyAll (s : StoreState) : List (CallCtx × Command) → StoreState
  | [] => s
  | (c, cmd) :: rest => applyAll (applyCmd c s cmd) rest

/-- The command records a sequence of `apply` calls generates, in
application order (newest last); ineffective commands contribute none. -/
def recordsOf (s : StoreState) : List (CallCtx × Command) → List HistoryRecord
  | [] => []
  | (c, cmd) :: rest =>
    let res := performCommand c.env s.plan cmd
    if res.plan = s.plan then recordsOf (applyCmd c s cmd) rest
    else
      ⟨cmd, res.description.getD (cmdTypeStr cmd), s.plan, res.plan, c.ts⟩ ::
        recordsOf (applyCmd c s cmd) rest

/-- Every command of the sequence is effective (changes the plan at the
point where it is applied). -/
def allEffective (s : StoreState) : List (CallCtx × Command) → Bool
  | [] => true
  | (c, cmd) :: rest =>
    if (performCommand c.env s.plan cmd).plan = s.plan then false
    else allEffective (applyCmd c s cmd) rest

/-- A record list forms an unbroken snapshot chain from `p0` to `pn`:
each record's `before` is the previous record's `after`. -/
def Chained : Plan → List HistoryRecord → Plan → Prop
  | p0, [], pn => p0 = pn
  | p0, r :: rs, pn => r.before = p0 ∧ Chained r.after rs pn

/-! ## Plan serialization (`domain/io.ts`) -/

/-- The JSON value tree. `exportPlanToJson` is `JSON.stringify(plan)` and
`importPlanFromJson` is `JSON.parse` plus a version-tag check; the text
layer is modelled by this abstract syntax (`JSON.parse` after
`JSON.stringify` reproduces the same tree), so export is an encoding into
`Json` and import a decoding out of it. -/
inductive Json where
  | null
  | bool (b : Bool)
  | num (q : ℚ)
  | str (s : String)
  | arr (items : List Json)
  | obj (fields : List (String × Json))

/-- Field lookup in a JSON object. -/
def lookupField (fields : List (String × Json)) (k : String) : Option Json :=
  (fields.find? (fun f => f.1 == k)).map (·.2)

/-- JS truthiness of a parsed JSON value (`!parsed.version`). -/
def jsonTruthy : Json → Bool
  | .null => false
  | .bool b => b
  | .num q => !(q == 0)
  | .str s => !(s == "")
  | .arr _ => true
  | .obj _ => true

/-- A field present only when the optional value is set: `JSON.stringify`
drops `undefined` properties. -/
def optField (k : String) (v : Option Json) : List (String × Json) :=
  match v with
  | none => []
  | some j => [(k, j)]

/-- Encode a point. -/
def ptToJson (p : Pt) : Json := .obj [("x", .num p.x), ("y", .num p.y)]

/-- Decode a point. -/
def ptOfJson : Json → Option Pt
  | .obj fields =>
    match lookupField fields "x", lookupField fields "y" with
    | some (.num x), some (.num y) => some ⟨x, y⟩
    | _, _ => none
  | _ => none

/-- Decode a list element-wise, failing when any element fails. -/
def decodeList (dec : Json → Option α) : List Json → Option (List α)
  | [] => some []
  | j :: rest =>
    match dec j, decodeList dec rest with
    | some a, some l => some (a :: l)
    | _, _ => none

/-- Encode a list of points. -/
def ptsToJson (pts : List Pt) : Json := .arr (pts.map ptToJson)

/-- Decode a list of points. -/
def ptsOfJson : Json → Option (List Pt)
  | .arr items => decodeList ptOfJson items
  | _ => none

/-- Encode a ring list (list of point lists). -/
def ringsToJson (rs : List (List Pt)) : Json := .arr (rs.map ptsToJson)

/-- Decode a ring list. -/
def ringsOfJson : Json → Option (List (List Pt))
  | .arr items => decodeList ptsOfJson items
  | _ => none

/-- Encode a shape with its `type` tag and optional fields omitted when
absent, in source field order. -/
def shapeToJson : Shape → Json
  | .rect r =>
    .obj ([("type", .str "rect"), ("x", .num r.x), ("y", .num r.y),
           ("width", .num r.width), ("height", .num r.height)] ++
          optField "rotation" (r.rotation.map .num) ++
          optField "cornerRadius" (r.cornerRadius.map .num))
  | .ellipse e =>
    .obj [("type", .str "ellipse"), ("cx", .num e.cx), ("cy", .num e.cy),
          ("rx", .num e.rx), ("ry", .num e.ry)]
  | .polygon pts rot holes =>
    .obj ([("type", .str "polygon"), ("points", ptsToJson pts)] ++
          optField "rotation" (rot.map .num) ++
          optField "holes" (holes.map ringsToJson))
  | .multipolygon polys holes =>
    .obj ([("type", .str "multipolygon"), ("polygons", ringsToJson polys)] ++
          optField "holes" (holes.map (fun hs => .arr (hs.map ringsToJson))))

/-- Decode an optional field: absent keys decode to `none`. -/
def decodeOpt (dec : Json → Option α) (fields : List (String × Json)) (k : String) :
    Option (Option α) :=
  match lookupField fields k with
  | none => some none
  | some j => (dec j).map some

/-- Decode a numeric field. -/
def numOfJson : Json → Option ℚ
  | .num q => some q
  | _ => none

/-- Decode a string field. -/
def strOfJson : Json → Option String
  | .str s => some s
  | _ => none

/-- Decode a boolean field. -/
def boolOfJson : Json → Option Bool
  | .bool b => some b
  | _ => none

/-- Decode a shape. -/
def shapeOfJson : Json → Option Shape
  | .obj fields =>
    match lookupField fields "type" with
    | some (.str "rect") =>
      match lookupField fields "x", lookupField fields "y",
            lookupField fields "width", lookupField fields "height",
            decodeOpt numOfJson fields "rotation", decodeOpt numOfJson fields "cornerRadius" with
      | some (.num x), some (.num y), some (.num w), some (.num h), some rot, some cr =>
        some (.rect ⟨x, y, w, h, rot, cr⟩)
      | _, _, _, _, _, _ => none
    | some (.str "ellipse") =>
      match lookupField fields "cx", lookupField fields "cy",
            lookupField fields "rx", lookupField fields "ry" with
      | some (.num cx), some (.num cy), some (.num rx), some (.num ry) =>
        some (.ellipse ⟨cx, cy, rx, ry⟩)
      | _, _, _, _ => none
    | some (.str "polygon") =>
      match (lookupField fields "points").bind ptsOfJson,
            decodeOpt numOfJson fields "rotation",
            decodeOpt ringsOfJson fields "holes" with
      | some pts, some rot, some holes => some (.polygon pts rot holes)
      | _, _, _ => none
    | some (.str "multipolygon") =>
      match (lookupField fields "polygons").bind ringsOfJson,
            decodeOpt (fun j => match j with
              | .arr items => decodeList ringsOfJson items
              | _ => none) fields "holes" with
      | some polys, some holes => some (.multipolygon polys holes)
      | _, _ => none
    | _ => none
  | _ => none

/-- Encode an area. -/
def areaToJson (a : Area) : Json :=
  .obj ([("id", .str a.id), ("name", .str a.name), ("fill", .str a.fill),
         ("stroke", .str a.stroke), ("strokeWidth", .num a.strokeWidth),
         ("shape", shapeToJson a.shape)] ++
        optField "parentId" (a.parentId.map .str))

/-- Decode an area. -/
def areaOfJson : Json → Option Area
  | .obj fields =>
    match lookupField fields "id", lookupField fields "name",
          lookupField fields "fill", lookupField fields "stroke",
          lookupField fields "strokeWidth",
          (lookupField fields "shape").bind shapeOfJson,
          decodeOpt strOfJson fields "parentId" with
    | some (.str id), some (.str name), some (.str fill), some (.str stroke),
      some (.num sw), some shape, some parentId =>
      some ⟨id, name, fill, stroke, sw, shape, parentId⟩
    | _, _, _, _, _, _, _ => none
  | _ => none

/-- Encode a group. -/
def groupToJson (g : AreaGroup) : Json :=
  .obj ([("id", .str g.id), ("name", .str g.name),
         ("areaIds", .arr (g.areaIds.map .str))] ++
        optField "locked" (g.locked.map .bool) ++
        optField "visible" (g.visible.map .bool))

/-- Decode a group. -/
def groupOfJson : Json → Option AreaGroup
  | .obj fields =>
    match lookupField fields "id", lookupField fields "name",
          (lookupField fields "areaIds").bind (fun j =>
            match j with
            | .arr items => decodeList strOfJson items
            | _ => none),
          decodeOpt boolOfJson fields "locked",
          decodeOpt boolOfJson fields "visible" with
    | some (.str id), some (.str name), some areaIds, some locked, some visible =>
      some ⟨id, name, areaIds, locked, visible⟩
    | _, _, _, _, _ => none
  | _ => none

/-- Encode the units tag. -/
def unitsToJson : PlanUnits → Json
  | .cm => .str "cm"
  | .m => .str "m"
  | .ft => .str "ft"

/-- Decode the units tag. -/
def unitsOfJson : Json → Option PlanUnits
  | .str "cm" => some .cm
  | .str "m" => some .m
  | .str "ft" => some .ft
  | _ => none

/-- Encode the canvas. -/
def canvasToJson (c : Canvas) : Json :=
  .obj [("width", .num c.width), ("height", .num c.height),
        ("zoom", .num c.zoom), ("pan", ptToJson c.pan)]

/-- Decode the canvas. -/
def canvasOfJson : Json → Option Canvas
  | .obj fields =>
    match lookupField fields "width", lookupField fields "height",
          lookupField fields "zoom", (lookupField fields "pan").bind ptOfJson with
    | some (.num w), some (.num h), some (.num z), some pan => some ⟨w, h, z, pan⟩
    | _, _, _, _ => none
  | _ => none

/-- Encode the meta record. -/
def metaToJson (mt : PlanMeta) : Json :=
  .obj [("name", .str mt.name), ("createdAt", .str mt.createdAt),
        ("updatedAt", .str mt.updatedAt)]

/-- Decode the meta record. -/
def metaOfJson : Json → Option PlanMeta
  | .obj fields =>
    match lookupField fields "name", lookupField fields "createdAt",
          lookupField fields "updatedAt" with
    | some (.str n), some (.str c), some (.str u) => some ⟨n, c, u⟩
    | _, _, _ => none
  | _ => none

/-- `exportPlanToJson(plan)`: the serialized plan tree, version tag
`'1.0'` first. -/
def exportPlanToJson (p : Plan) : Json :=
  .obj ([("version", .str "1.0"), ("units", unitsToJson p.units),
         ("canvas", canvasToJson p.canvas),
         ("areas", .arr (p.areas.map areaToJson))] ++
        optField "areaGroups" (p.areaGroups.map (fun gs => .arr (gs.map groupToJson))) ++
        [("meta", metaToJson p.meta)])

/-- `importPlanFromJson(json)`: fails (returns `none`) when the parsed
value has no truthy `version` tag, and otherwise reads the plan tree back. -/
def importPlanFromJson (j : Json) : Option Plan :=
  match j with
  | .obj fields =>
    match lookupField fields "version" with
    | none => none
    | some v =>
      if !(jsonTruthy v) then none
      else
        match lookupField fields "units" |>.bind unitsOfJson,
              lookupField fields "canvas" |>.bind canvasOfJson,
              lookupField fields "areas" |>.bind (fun aj =>
                match aj with
                | .arr items => decodeList areaOfJson items
                | _ => none),
              decodeOpt (fun gj =>
                match gj with
                | .arr items => decodeList groupOfJson items
                | _ => none) fields "areaGroups",
              lookupField fields "meta" |>.bind metaOfJson with
        | some units, some canvas, some areas, some groups, some meta =>
          some ⟨units, canvas, areas, groups, meta⟩
        | _, _, _, _, _ => none
  | _ => none

/-! ## Shared lemmas -/

theorem clamp_le_hi (v lo hi : Coord) : clamp v lo hi ≤ hi := min_le_right _ _

theorem lo_le_clamp (v : Coord) {lo hi : Coord} (h : lo ≤ hi) : lo ≤ clamp v lo hi :=
  le_min (le_max_right _ _) h

theorem clamp_nonneg (v hi : Coord) (h : 0 ≤ hi) : 0 ≤ clamp v 0 hi := lo_le_clamp v h

theorem findArea_some_id {plan : Plan} {id : String} {a : Area}
    (h : findArea plan id = some a) : a.id = id := by
  have := List.find?_some h
  simpa using this

theorem findArea_some_mem {plan : Plan} {id : String} {a : Area}
    (h : findArea plan id = some a) : a ∈ plan.areas :=
  List.mem_of_find?_eq_some h

theorem findArea_eq_none {plan : Plan} {id : String}
    (h : ∀ a ∈ plan.areas, a.id ≠ id) : findArea plan id = none := by
  rw [findArea, List.find?_eq_none]
  intro a ha
  simpa using h a ha

theorem mem_updateFirst {pred : α → Bool} {f : α → α} {l : List α} {b : α}
    (hb : b ∈ updateFirst pred f l) : b ∈ l ∨ ∃ a ∈ l, pred a ∧ b = f a := by
  induction l with
  | nil => simp [updateFirst] at hb
  | cons a rest ih =>
    rw [updateFirst] at hb
    by_cases hp : pred a
    · rw [if_pos hp] at hb
      rcases List.mem_cons.1 hb with h | h
      · exact Or.inr ⟨a, List.mem_cons_self a rest, hp, h⟩
      · exact Or.inl (List.mem_cons_of_mem a h)
    · rw [if_neg hp] at hb
      rcases List.mem_cons.1 hb with h | h
      · exact Or.inl (h ▸ List.mem_cons_self a rest)
      · rcases ih h with h' | ⟨c, hc, hcp, hcb⟩
        · exact Or.inl (List.mem_cons_of_mem a h')
        · exact Or.inr ⟨c, List.mem_cons_of_mem a hc, hcp, hcb⟩

/-! ## Claim C6: the divide scenario -/

theorem split_4x2_vertical :
    splitRectEvenly ⟨0, 0, 4, 2, none, none⟩ 2 .vertical =
      [⟨0, 0, 2, 2, none, none⟩, ⟨2, 0, 2, 2, none, none⟩] := by
  simp only [splitRectEvenly, List.range_succ, List.range_zero]
  norm_num

/-- C6: dividing a rect area `{x:0, y:0, width:4, height:2}` into 2 vertical
partitions removes the original area and appends exactly two areas with
rect shapes `{0,0,2,2}` and `{2,0,2,2}`, each carrying `parentId` equal to
the original area's id. -/
theorem claim6_divide_scenario (env : Env) (plan : Plan) (origId : String) (origArea : Area)
    (hfind : findArea plan origId = some origArea)
    (hshape : origArea.shape = .rect ⟨0, 0, 4, 2, none, none⟩) :
    ∃ a0 a1 : Area,
      (performCommand env plan (.areaDivide origId 2 (some .vertical))).plan.areas =
        plan.areas.filter (fun a => a.id != origId) ++ [a0, a1] ∧
      a0.shape = .rect ⟨0, 0, 2, 2, none, none⟩ ∧
      a1.shape = .rect ⟨2, 0, 2, 2, none, none⟩ ∧
      a0.parentId = some origId ∧ a1.parentId = some origId := by
  have hid := findArea_some_id hfind
  refine ⟨⟨env.fresh 0, ((partitionNames origArea.name 2).get? 0).getD "", origArea.fill,
      origArea.stroke, origArea.strokeWidth, .rect ⟨0, 0, 2, 2, none, none⟩, some origArea.id⟩,
    ⟨env.fresh 1, ((partitionNames origArea.name 2).get? 1).getD "", origArea.fill,
      origArea.stroke, origArea.strokeWidth, .rect ⟨2, 0, 2, 2, none, none⟩, some origArea.id⟩,
    ?_, rfl, rfl, by rw [hid], by rw [hid]⟩
  simp only [performCommand, hfind, hshape, Option.getD_some, max_self, ensureUpdated,
    split_4x2_vertical]
  rfl

/-- A fixed impure context for concrete test scenarios: a trivial boolean
engine, sequential ids, the timestamp `"t1"` and a constant circle sample. -/
def testEnv : Env :=
  ⟨⟨fun _ => [], fun subject _ => subject⟩, fun n => "uid" ++ toString n, "t1", fun _ => (1, 0)⟩

/-- A demo area with the 4×2 rect of the divide scenario. -/
def demoArea : Area := ⟨"r1", "Area 1", "#bfdbfe", "#1d4ed8", 1, .rect ⟨0, 0, 4, 2, none, none⟩, none⟩

/-- A demo plan holding `demoArea` on a 12×9 canvas. -/
def demoPlan : Plan := ⟨.m, ⟨12, 9, 1, ⟨0, 0⟩⟩, [demoArea], none, ⟨"Demo", "t0", "t0"⟩⟩

theorem claim6_witness :
    ∃ a0 a1 : Area,
      (performCommand testEnv demoPlan (.areaDivide "r1" 2 (some .vertical))).plan.areas =
        demoPlan.areas.filter (fun a => a.id != "r1") ++ [a0, a1] ∧
      a0.shape = .rect ⟨0, 0, 2, 2, none, none⟩ ∧
      a1.shape = .rect ⟨2, 0, 2, 2, none, none⟩ ∧
      a0.parentId = some "r1" ∧ a1.parentId = some "r1" :=
  claim6_divide_scenario testEnv demoPlan "r1" demoArea rfl rfl

/-! ## Claim C1: commands referencing unknown ids -/

theorem updateFirst_of_forall_neg {p : α → Bool} {f : α → α} {l : List α}
    (h : ∀ a ∈ l, p a = false) : updateFirst p f l = l := by
  induction l with
  | nil => rfl
  | cons a rest ih =>
    rw [updateFirst, if_neg, ih]
    · intro b hb
      exact h b (List.mem_cons_of_mem a hb)
    · simp [h a (List.mem_cons_self a rest)]

/-- C1 (amended): with a target id absent from the plan, the commands that
resolve their target before mutating return the input plan itself; but
`area/delete`, `area/set-rect-batch` and `area/move-multi` return the
input plan with only `meta.updatedAt` restamped, and `group/delete` /
`group/visibility` additionally materialize an absent `areaGroups` as an
empty list. -/
theorem claim1_invalid_ref_amended (env : Env) (plan : Plan) (tid : String)
    (dx dy : Coord) (handle : Handle) (rect : Rect) (ellipse : Ellipse)
    (pts : List Pt) (polys : List (List Pt)) (nm fill : String) (axis : MirrorAxis)
    (parts : Nat) (dirOpt : Option Direction) (onm ofill ostroke : Option String)
    (vb : Bool)
    (hid : ∀ a ∈ plan.areas, a.id ≠ tid)
    (hgid : ∀ g ∈ plan.areaGroups.getD [], g.id ≠ tid) :
    (performCommand env plan (.areaMove tid dx dy)).plan = plan ∧
    (performCommand env plan (.areaMovePolygon tid dx dy)).plan = plan ∧
    (performCommand env plan (.areaResize tid handle dx dy)).plan = plan ∧
    (performCommand env plan (.areaSetRect tid rect)).plan = plan ∧
    (performCommand env plan (.areaSetEllipse tid ellipse)).plan = plan ∧
    (performCommand env plan (.areaSetPolygon tid pts)).plan = plan ∧
    (performCommand env plan (.areaSetMultipolygon tid polys)).plan = plan ∧
    (performCommand env plan (.areaRename tid nm)).plan = plan ∧
    (performCommand env plan (.areaRecolor tid fill)).plan = plan ∧
    (performCommand env plan (.areaMirror tid axis)).plan = plan ∧
    (performCommand env plan (.areaDivide tid parts dirOpt)).plan = plan ∧
    (performCommand env plan (.areaSubtract [tid, tid])).plan = plan ∧
    (performCommand env plan (.areaMerge [tid, tid] onm ofill ostroke)).plan = plan ∧
    (performCommand env plan (.areaConvertToPolygon [tid] onm ofill ostroke)).plan = plan ∧
    (performCommand env plan (.areaDelete tid)).plan = ensureUpdated env.now plan ∧
    (performCommand env plan (.areaSetRectBatch [(tid, rect)])).plan =
      ensureUpdated env.now plan ∧
    (performCommand env plan (.areaMoveMulti [tid] dx dy)).plan =
      ensureUpdated env.now plan ∧
    (performCommand env plan (.groupDelete tid)).plan =
      ensureUpdated env.now { plan with areaGroups := some (plan.areaGroups.getD []) } ∧
    (performCommand env plan (.groupVisibility tid vb)).plan =
      ensureUpdated env.now { plan with areaGroups := some (plan.areaGroups.getD []) } := by
  have hnone : findArea plan tid = none := findArea_eq_none hid
  have hdel : plan.areas.filter (fun a => a.id != tid) = plan.areas := by
    rw [List.filter_eq_self]
    intro a ha
    simpa using hid a ha
  have hupd : ∀ (f : Area → Area), updateFirst (fun a => a.id == tid) f plan.areas = plan.areas := by
    intro f
    apply updateFirst_of_forall_neg
    intro a ha
    simpa using hid a ha
  have hg : (plan.areaGroups.getD []).filter (fun g => g.id != tid) = plan.areaGroups.getD [] := by
    rw [List.filter_eq_self]
    intro g hgmem
    simpa using hgid g hgmem
  have hgv : (plan.areaGroups.getD []).map
      (fun g => if g.id == tid then { g with visible := some vb } else g) =
      plan.areaGroups.getD [] := by
    have hpt : ∀ g ∈ plan.areaGroups.getD [],
        (if g.id == tid then { g with visible := some vb } else g) = g := by
      intro g hgm
      simp [hgid g hgm]
    calc (plan.areaGroups.getD []).map (fun g => if g.id == tid then { g with visible := some vb } else g)
        = (plan.areaGroups.getD []).map id := List.map_congr_left hpt
      _ = plan.areaGroups.getD [] := List.map_id _
  have hgv' : (plan.areaGroups.getD []).map
      (fun g => if g.id = tid then { g with visible := some vb } else g) =
      plan.areaGroups.getD [] := by
    have hpt : ∀ g ∈ plan.areaGroups.getD [],
        (if g.id = tid then { g with visible := some vb } else g) = g := by
      intro g hgm
      simp [hgid g hgm]
    calc (plan.areaGroups.getD []).map (fun g => if g.id = tid then { g with visible := some vb } else g)
        = (plan.areaGroups.getD []).map id := List.map_congr_left hpt
      _ = plan.areaGroups.getD [] := List.map_id _
  refine ⟨?_, ?_, ?_, ?_, ?_, ?_, ?_, ?_, ?_, ?_, ?_, ?_, ?_, ?_, ?_, ?_, ?_, ?_, ?_⟩
  all_goals simp [performCommand, hnone, noop, hdel, hupd, hg, hgv, hgv']

theorem claim1_cex :
    (performCommand testEnv demoPlan (.areaDelete "zzz")).plan ≠ demoPlan := by
  intro h
  have h2 : "t1" = "t0" := by
    simpa [performCommand, ensureUpdated, testEnv, demoPlan] using
      congrArg (fun p => p.meta.updatedAt) h
  exact absurd h2 (by decide)

theorem claim1_witness :
    (performCommand testEnv demoPlan (.areaMove "zzz" 1 2)).plan = demoPlan :=
  (claim1_invalid_ref_amended testEnv demoPlan "zzz" 1 2 .e ⟨0, 0, 1, 1, none, none⟩
    ⟨1, 1, 1, 1⟩ [] [] "N" "#fff" .vertical 3 none none none none true
    (by simp [demoPlan, demoArea])
    (by simp [demoPlan])).1

/-! ## Claim C8: overlap is never a precondition -/

theorem find?_updateFirst {p : α → Bool} {f : α → α} {l : List α} {a : α}
    (h : l.find? p = some a) (hf : p (f a) = true) :
    (updateFirst p f l).find? p = some (f a) := by
  induction l with
  | nil => simp at h
  | cons b rest ih =>
    by_cases hb : p b
    · rw [List.find?_cons_of_pos _ hb] at h
      obtain rfl := Option.some.inj h
      rw [updateFirst, if_pos hb]
      exact List.find?_cons_of_pos _ hf
    · rw [List.find?_cons_of_neg _ hb] at h
      rw [updateFirst, if_neg hb, List.find?_cons_of_neg _ hb]
      exact ih h

theorem length_splitRectEvenly (r : Rect) (c : Nat) (d : Direction) :
    (splitRectEvenly r c d).length = max 1 c := by
  rw [splitRectEvenly.eq_def]
  by_cases h : c ≤ 1
  · rw [if_pos h]
    simp only [List.length_singleton]
    omega
  · rw [if_neg h]
    cases d <;> simp only [List.length_map, List.length_range] <;> omega

/-- C8: geometric overlap with another rect area is never a precondition:
`area/set-rect` applies its update (with canvas clamping as the only
adjustment) even when the constrained rect overlaps another rect area,
and `area/create` appends all its partition rects regardless of overlap. -/
theorem claim8_overlap_no_precondition :
    (∀ (env : Env) (plan : Plan) (id : String) (rect : Rect) (target other : Area) (tr r' : Rect),
      findArea plan id = some target →
      target.shape = .rect tr →
      other ∈ plan.areas → other.id ≠ id → other.shape = .rect r' →
      rectsOverlap (constrainRectToBounds rect plan.canvas MIN_SIZE) r' = true →
      findArea (performCommand env plan (.areaSetRect id rect)).plan id =
        some { target with shape := .rect (constrainRectToBounds rect plan.canvas MIN_SIZE) } ∧
      (performCommand env plan (.areaSetRect id rect)).selection = some ⟨[id]⟩) ∧
    (∀ (env : Env) (plan : Plan) (rect : Rect) (partitions : Option Nat)
       (direction : Option Direction) (fill stroke name parentId : Option String)
       (other : Area) (r' : Rect),
      other ∈ plan.areas → other.shape = .rect r' →
      rectsOverlap (constrainRectToBounds rect plan.canvas MIN_SIZE) r' = true →
      ((performCommand env plan
          (.areaCreate rect partitions direction fill stroke name parentId)).plan.areas).length =
        plan.areas.length + max 1 (partitions.getD 1)) := by
  constructor
  · intro env plan id rect target other tr r' hfind htr hmem hne hsh hov
    have hid := findArea_some_id hfind
    constructor
    · show findArea _ id = _
      have : (performCommand env plan (.areaSetRect id rect)).plan.areas =
          updateFirst (fun a => a.id == id)
            (fun a => { a with shape := .rect (constrainRectToBounds rect plan.canvas MIN_SIZE) })
            plan.areas := by
        simp [performCommand, hfind, htr, ensureUpdated]
      rw [findArea, this]
      exact find?_updateFirst hfind (by simp [hid])
    · simp [performCommand, hfind, htr]
  · intro env plan rect partitions direction fill stroke name parentId other r' hmem hsh hov
    simp [performCommand, ensureUpdated, length_splitRectEvenly]

/-- An area overlapping `overlapAreaB` once moved onto it. -/
def overlapAreaA : Area := ⟨"a1", "A", "#fff", "#000", 1, .rect ⟨1, 1, 4, 3, none, none⟩, none⟩

/-- A second rect area in the overlap scenario. -/
def overlapAreaB : Area := ⟨"b1", "B", "#fff", "#000", 1, .rect ⟨2, 2, 4, 3, none, none⟩, none⟩

/-- A plan with the two overlap-scenario areas. -/
def overlapPlan : Plan := ⟨.m, ⟨12, 9, 1, ⟨0, 0⟩⟩, [overlapAreaA, overlapAreaB], none, ⟨"P", "t0", "t0"⟩⟩

theorem claim8_witness :
    findArea (performCommand testEnv overlapPlan
        (.areaSetRect "a1" ⟨2, 2, 4, 3, none, none⟩)).plan "a1" =
      some { overlapAreaA with
        shape := .rect (constrainRectToBounds ⟨2, 2, 4, 3, none, none⟩ overlapPlan.canvas MIN_SIZE) } ∧
    (performCommand testEnv overlapPlan (.areaSetRect "a1" ⟨2, 2, 4, 3, none, none⟩)).selection =
      some ⟨["a1"]⟩ :=
  claim8_overlap_no_precondition.1 testEnv overlapPlan "a1" ⟨2, 2, 4, 3, none, none⟩
    overlapAreaA overlapAreaB ⟨1, 1, 4, 3, none, none⟩ ⟨2, 2, 4, 3, none, none⟩
    rfl rfl (by simp [overlapPlan]) (by decide) rfl
    (by simp [rectsOverlap, constrainRectToBounds, clamp, MIN_SIZE, overlapPlan]
        norm_num)

/-! ## Claim C7: angle snapping -/

/-- Mathematical floor-based modulus on ℚ (always in `[0, n)` for `n > 0`),
used to state circular distance. -/
def qfloorMod (q n : ℚ) : ℚ := q - n * (⌊q / n⌋ : ℚ)

/-- The circular distance between two angles (the spec's "minimal circular
distance"): the smaller of the two arcs between them on a 360° circle. -/
def circDist (a s : ℚ) : ℚ :=
  min (qfloorMod (a - s) 360) (360 - qfloorMod (a - s) 360)

theorem qfloorMod_eq_of {q n r : ℚ} (k : ℤ) (hr0 : 0 ≤ r) (hrn : r < n)
    (hq : q = n * k + r) : qfloorMod q n = r := by
  have hn : 0 < n := lt_of_le_of_lt hr0 hrn
  have hfloor : ⌊q / n⌋ = k := by
    have hdiv : q / n = (k : ℚ) + r / n := by
      rw [hq]
      field_simp
      ring
    rw [hdiv]
    rw [add_comm]
    rw [Int.floor_add_int]
    have h1 : 0 ≤ r / n := div_nonneg hr0 (le_of_lt hn)
    have h2 : r / n < 1 := (div_lt_one hn).mpr hrn
    rw [Int.floor_eq_zero_iff.mpr ⟨h1, h2⟩]
    ring
  rw [qfloorMod, hfloor, hq]
  ring

theorem qfloorMod_spec (q n : ℚ) (hn : 0 < n) :
    0 ≤ qfloorMod q n ∧ qfloorMod q n < n ∧
      q = n * (⌊q / n⌋ : ℚ) + qfloorMod q n := by
  refine ⟨?_, ?_, by rw [qfloorMod]; ring⟩
  · rw [qfloorMod, sub_nonneg, mul_comm]
    calc (⌊q / n⌋ : ℚ) * n ≤ q / n * n := by
          apply mul_le_mul_of_nonneg_right (Int.floor_le _) (le_of_lt hn)
      _ = q := div_mul_cancel₀ q (ne_of_gt hn)
  · rw [qfloorMod, sub_lt_iff_lt_add]
    calc q = q / n * n := (div_mul_cancel₀ q (ne_of_gt hn)).symm
      _ < ((⌊q / n⌋ : ℚ) + 1) * n := by
          apply mul_lt_mul_of_pos_right (Int.lt_floor_add_one _) hn
      _ = n + n * (⌊q / n⌋ : ℚ) := by ring

theorem circDist_le_180 (a s : ℚ) : circDist a s ≤ 180 := by
  obtain ⟨h0, h360, _⟩ := qfloorMod_spec (a - s) 360 (by norm_num)
  rw [circDist]
  rcases le_total (qfloorMod (a - s) 360) 180 with h | h
  · exact le_trans (min_le_left _ _) h
  · exact le_trans (min_le_right _ _) (by linarith)

/-- The code's per-target measure `Math.abs(((angle - s + 540) % 360) - 180)`
equals the true circular distance whenever `angle - s + 540 ≥ 0` (for
smaller angles the JS remainder goes negative and the measure degrades). -/
theorem code_delta_eq_circDist (a s : ℚ) (hge : 0 ≤ a - s + 540) :
    |jsMod (a - s + 540) 360 - 180| = circDist a s := by
  have hjs : jsMod (a - s + 540) 360 = qfloorMod (a - s + 540) 360 := by
    rw [jsMod, qfloorMod, jsTrunc, if_neg]
    rw [not_lt]
    positivity
  obtain ⟨h0, h360, hdecomp⟩ := qfloorMod_spec (a - s) 360 (by norm_num)
  set u := qfloorMod (a - s) 360 with hu
  set k := ⌊(a - s) / 360⌋ with hk
  rcases lt_or_le u 180 with hcase | hcase
  · have hmod : qfloorMod (a - s + 540) 360 = u + 180 := by
      apply qfloorMod_eq_of (k + 1) (by linarith) (by linarith)
      push_cast
      linarith [hdecomp]
    rw [hjs, hmod, circDist, ← hu]
    rw [abs_of_nonneg (by linarith : (0:ℚ) ≤ u + 180 - 180)]
    rw [min_eq_left (by linarith)]
    ring
  · have hmod : qfloorMod (a - s + 540) 360 = u - 180 := by
      apply qfloorMod_eq_of (k + 2) (by linarith) (by linarith)
      push_cast
      linarith [hdecomp]
    rw [hjs, hmod, circDist, ← hu]
    rw [abs_of_nonpos (by linarith : u - 180 - 180 ≤ 0)]
    rw [min_eq_right (by linarith)]
    ring

theorem foldl_min_spec (m : ℚ → ℚ) (L : List ℚ) (b0 d0 : ℚ) :
    (L.foldl (fun best s => if m s < best.2 then (s, m s) else best) (b0, d0) = (b0, d0) ∨
      ((L.foldl (fun best s => if m s < best.2 then (s, m s) else best) (b0, d0)).1 ∈ L ∧
       (L.foldl (fun best s => if m s < best.2 then (s, m s) else best) (b0, d0)).2 =
         m (L.foldl (fun best s => if m s < best.2 then (s, m s) else best) (b0, d0)).1)) ∧
    (L.foldl (fun best s => if m s < best.2 then (s, m s) else best) (b0, d0)).2 ≤ d0 ∧
    ∀ s ∈ L, (L.foldl (fun best s => if m s < best.2 then (s, m s) else best) (b0, d0)).2 ≤ m s := by
  induction L generalizing b0 d0 with
  | nil => simp
  | cons s rest ih =>
    rw [List.foldl_cons]
    by_cases h : m s < d0
    · rw [if_pos h]
      obtain ⟨h1, h2, h3⟩ := ih s (m s)
      refine ⟨?_, le_of_lt (lt_of_le_of_lt h2 h), ?_⟩
      · rcases h1 with h1 | h1
        · right
          rw [h1]
          exact ⟨List.mem_cons_self _ _, rfl⟩
        · exact Or.inr ⟨List.mem_cons_of_mem _ h1.1, h1.2⟩
      · intro x hx
        rcases List.mem_cons.1 hx with rfl | hx
        · exact h2
        · exact h3 x hx
    · rw [if_neg h]
      obtain ⟨h1, h2, h3⟩ := ih b0 d0
      refine ⟨?_, h2, ?_⟩
      · rcases h1 with h1 | h1
        · exact Or.inl h1
        · exact Or.inr ⟨List.mem_cons_of_mem _ h1.1, h1.2⟩
      · intro x hx
        rcases List.mem_cons.1 hx with rfl | hx
        · exact le_trans h2 (not_lt.1 h)
        · exact h3 x hx

/-- C7 (amended): `snapAngle(angle, false)` is the identity, and for angles
at least −225°, `snapAngle(angle, true)` returns the member of the code's
snap set `{0, 15, 30, 45, 90, 135, 180, 225, 270, 315}` (not the full set
of 15° multiples) with minimal circular distance to the input. -/
theorem claim7_snapAngle_amended (a : ℚ) :
    snapAngle a false = a ∧
    (-225 ≤ a →
      snapAngle a true ∈ snapList ∧
      ∀ s ∈ snapList, circDist a (snapAngle a true) ≤ circDist a s) := by
  refine ⟨rfl, fun ha => ?_⟩
  have hbound : ∀ s ∈ snapList, 0 ≤ a - s + 540 := by
    intro s hs
    fin_cases hs <;> linarith
  have hdelta : ∀ s ∈ snapList, |jsMod (a - s + 540) 360 - 180| = circDist a s := by
    intro s hs
    exact code_delta_eq_circDist a s (hbound s hs)
  have hspec := foldl_min_spec (fun s => |jsMod (a - s + 540) 360 - 180|) snapList a 360
  set F := snapList.foldl
    (fun best s => if |jsMod (a - s + 540) 360 - 180| < best.2
      then (s, |jsMod (a - s + 540) 360 - 180|) else best) (a, 360) with hF
  obtain ⟨h1, _, h3⟩ := hspec
  have hres : snapAngle a true = F.1 := rfl
  have hzero : (0 : ℚ) ∈ snapList := by
    rw [snapList]
    exact List.mem_cons_self _ _
  have hlt : F.2 < 360 := by
    calc F.2 ≤ |jsMod (a - 0 + 540) 360 - 180| := h3 0 hzero
      _ = circDist a 0 := hdelta 0 hzero
      _ ≤ 180 := circDist_le_180 a 0
      _ < 360 := by norm_num
  rcases h1 with h1 | h1
  · exfalso
    rw [h1] at hlt
    exact absurd hlt (by norm_num)
  · refine ⟨hres ▸ h1.1, fun s hs => ?_⟩
    calc circDist a (snapAngle a true) = circDist a F.1 := by rw [hres]
      _ = |jsMod (a - F.1 + 540) 360 - 180| := (hdelta F.1 h1.1).symm
      _ = F.2 := h1.2.symm
      _ ≤ |jsMod (a - s + 540) 360 - 180| := h3 s hs
      _ = circDist a s := hdelta s hs

/-- The snap set claimed by the spec: all multiples of 15° in `[0, 315]`.
Named from the spec's words, to compare against the code's `snapList`. -/
def specFifteenMultiples : List ℚ :=
  [0, 15, 30, 45, 60, 75, 90, 105, 120, 135, 150, 165, 180, 195, 210, 225,
   240, 255, 270, 285, 300, 315]

theorem claim7_cex :
    snapAngle 60 true = 45 ∧ (60 : ℚ) ∈ specFifteenMultiples ∧
    ¬ (circDist 60 (snapAngle 60 true) ≤ circDist 60 60) := by
  have h : snapAngle 60 true = 45 := by
    norm_num [snapAngle, snapList, jsMod, jsTrunc]
  refine ⟨h, ?_, ?_⟩
  · rw [specFifteenMultiples]
    norm_num
  · rw [h]
    norm_num [circDist, qfloorMod]

theorem claim7_witness :
    snapAngle 60 false = 60 ∧
    (snapAngle 60 true ∈ snapList ∧
     ∀ s ∈ snapList, circDist 60 (snapAngle 60 true) ≤ circDist 60 s) :=
  ⟨(claim7_snapAngle_amended 60).1, (claim7_snapAngle_amended 60).2 (by norm_num)⟩

/-! ## Claim C9: export/import round trip -/

theorem decodeList_map {enc : α → Json} {dec : Json → Option α}
    (h : ∀ a, dec (enc a) = some a) : ∀ l : List α, decodeList dec (l.map enc) = some l
  | [] => rfl
  | a :: rest => by
    rw [List.map_cons, decodeList, h a, decodeList_map h rest]

theorem pt_roundtrip (p : Pt) : ptOfJson (ptToJson p) = some p := rfl

theorem pts_roundtrip (pts : List Pt) : ptsOfJson (ptsToJson pts) = some pts :=
  decodeList_map pt_roundtrip pts

theorem rings_roundtrip (rs : List (List Pt)) : ringsOfJson (ringsToJson rs) = some rs :=
  decodeList_map pts_roundtrip rs

theorem shape_roundtrip (s : Shape) : shapeOfJson (shapeToJson s) = some s := by
  cases s with
  | rect r =>
    obtain ⟨x, y, w, h, rot, cr⟩ := r
    cases rot <;> cases cr <;> rfl
  | ellipse e => rfl
  | polygon pts rot holes =>
    cases rot <;> cases holes <;>
      simp [shapeToJson, shapeOfJson, lookupField, optField, decodeOpt, numOfJson,
        pts_roundtrip, rings_roundtrip]
  | multipolygon polys holes =>
    cases holes <;>
      simp [shapeToJson, shapeOfJson, lookupField, optField, decodeOpt,
        rings_roundtrip, decodeList_map rings_roundtrip]

theorem area_roundtrip (a : Area) : areaOfJson (areaToJson a) = some a := by
  obtain ⟨id, name, fill, stroke, sw, shape, parentId⟩ := a
  cases parentId <;>
    simp [areaToJson, areaOfJson, lookupField, optField, decodeOpt, strOfJson,
      shape_roundtrip]

theorem group_roundtrip (g : AreaGroup) : groupOfJson (groupToJson g) = some g := by
  obtain ⟨id, name, areaIds, locked, visible⟩ := g
  cases locked <;> cases visible <;>
    simp [groupToJson, groupOfJson, lookupField, optField, decodeOpt, boolOfJson,
      decodeList_map (fun s => (rfl : strOfJson (.str s) = some s))]

theorem canvas_roundtrip (c : Canvas) : canvasOfJson (canvasToJson c) = some c := rfl

theorem meta_roundtrip (mt : PlanMeta) : metaOfJson (metaToJson mt) = some mt := rfl

theorem units_roundtrip (u : PlanUnits) : unitsOfJson (unitsToJson u) = some u := by
  cases u <;> rfl

/-- C9: for every plan, importing its export succeeds and reproduces the
plan exactly, optional fields (`parentId`, `holes`, `rotation`,
`areaGroups`, group flags) included. -/
theorem claim9_roundtrip (p : Plan) : importPlanFromJson (exportPlanToJson p) = some p := by
  obtain ⟨units, canvas, areas, areaGroups, meta⟩ := p
  cases areaGroups <;>
    simp [exportPlanToJson, importPlanFromJson, lookupField, optField, jsonTruthy,
      decodeOpt, units_roundtrip, canvas_roundtrip, meta_roundtrip,
      decodeList_map area_roundtrip, decodeList_map group_roundtrip]

/-! ## Claim C3: canvas-bounds invariant after move/resize/create/paste -/

/-- A rect shape whose size fits the canvas (trivial for other shapes). -/
def rectFits : Shape → Canvas → Prop
  | .rect r, c => r.width ≤ c.width ∧ r.height ≤ c.height
  | _, _ => True

/-- The claim's bound condition for rect shapes (trivial for others). -/
def rectInBounds : Shape → Canvas → Prop
  | .rect r, c => 0 ≤ r.x ∧ r.x + r.width ≤ c.width ∧ 0 ≤ r.y ∧ r.y + r.height ≤ c.height
  | _, _ => True

/-- The claim's bound condition for ellipse shapes (trivial for others). -/
def ellipseInBounds : Shape → Canvas → Prop
  | .ellipse e, c =>
    0 ≤ e.cx - e.rx ∧ e.cx + e.rx ≤ c.width ∧ 0 ≤ e.cy - e.ry ∧ e.cy + e.ry ≤ c.height
  | _, _ => True

/-- The commands quantified over by the claim. -/
def isMoveResizeCreatePaste : Command → Prop
  | .areaMove .. | .areaResize .. | .areaCreate .. | .areaPaste .. => True
  | _ => False

theorem moveRect_inBounds (r : Rect) (dx dy : Coord) (c : Canvas)
    (hw : r.width ≤ c.width) (hh : r.height ≤ c.height) :
    rectInBounds (.rect (moveRect r dx dy c)) c := by
  have hw' : (0 : ℚ) ≤ c.width - r.width := by linarith
  have hh' : (0 : ℚ) ≤ c.height - r.height := by linarith
  have hmx : max 0 (c.width - r.width) = c.width - r.width := max_eq_right hw'
  have hmy : max 0 (c.height - r.height) = c.height - r.height := max_eq_right hh'
  rw [moveRect, rectInBounds]
  rw [hmx, hmy]
  refine ⟨clamp_nonneg _ _ hw', ?_, clamp_nonneg _ _ hh', ?_⟩
  · have := clamp_le_hi (r.x + dx) 0 (c.width - r.width)
    linarith
  · have := clamp_le_hi (r.y + dy) 0 (c.height - r.height)
    linarith

theorem applyRectResize_inBounds (r : Rect) (h : Handle) (dx dy : Coord) (c : Canvas)
    (minS : Coord) (hW : minS ≤ c.width) (hH : minS ≤ c.height) :
    rectInBounds (.rect (applyRectResize r h dx dy c minS)) c := by
  rw [applyRectResize, rectInBounds]
  set w3 := max minS (min (if h.hasW then
      let nextX := clamp (r.x + dx) 0 (r.x + (if h.hasE then clamp (r.width + dx) minS (c.width - r.x) else r.width) - minS)
      (nextX, clamp ((if h.hasE then clamp (r.width + dx) minS (c.width - r.x) else r.width) - (nextX - r.x)) minS (c.width - nextX))
    else (r.x, (if h.hasE then clamp (r.width + dx) minS (c.width - r.x) else r.width))).2 c.width) with hw3
  set h3 := max minS (min (if h.hasN then
      let nextY := clamp (r.y + dy) 0 (r.y + (if h.hasS then clamp (r.height + dy) minS (c.height - r.y) else r.height) - minS)
      (nextY, clamp ((if h.hasS then clamp (r.height + dy) minS (c.height - r.y) else r.height) - (nextY - r.y)) minS (c.height - nextY))
    else (r.y, (if h.hasS then clamp (r.height + dy) minS (c.height - r.y) else r.height))).2 c.height) with hh3
  have hwle : w3 ≤ c.width := by
    rw [hw3]
    exact max_le hW (min_le_right _ _)
  have hhle : h3 ≤ c.height := by
    rw [hh3]
    exact max_le hH (min_le_right _ _)
  have hwpos : (0 : ℚ) ≤ c.width - w3 := by linarith
  have hhpos : (0 : ℚ) ≤ c.height - h3 := by linarith
  refine ⟨clamp_nonneg _ _ hwpos, ?_, clamp_nonneg _ _ hhpos, ?_⟩
  · have := clamp_le_hi ((if h.hasW then
        let nextX := clamp (r.x + dx) 0 (r.x + (if h.hasE then clamp (r.width + dx) minS (c.width - r.x) else r.width) - minS)
        (nextX, clamp ((if h.hasE then clamp (r.width + dx) minS (c.width - r.x) else r.width) - (nextX - r.x)) minS (c.width - nextX))
      else (r.x, (if h.hasE then clamp (r.width + dx) minS (c.width - r.x) else r.width))).1)
      0 (c.width - w3)
    linarith
  · have := clamp_le_hi ((if h.hasN then
        let nextY := clamp (r.y + dy) 0 (r.y + (if h.hasS then clamp (r.height + dy) minS (c.height - r.y) else r.height) - minS)
        (nextY, clamp ((if h.hasS then clamp (r.height + dy) minS (c.height - r.y) else r.height) - (nextY - r.y)) minS (c.height - nextY))
      else (r.y, (if h.hasS then clamp (r.height + dy) minS (c.height - r.y) else r.height))).1)
      0 (c.height - h3)
    linarith

theorem constrainRect_spec (r : Rect) (c : Canvas) (minS : Coord)
    (hW : minS ≤ c.width) (hH : minS ≤ c.height) :
    rectInBounds (.rect (constrainRectToBounds r c minS)) c ∧
    minS ≤ (constrainRectToBounds r c minS).width ∧
    minS ≤ (constrainRectToBounds r c minS).height := by
  rw [constrainRectToBounds, rectInBounds]
  have hmx : max 0 (c.width - minS) = c.width - minS := max_eq_right (by linarith)
  have hmy : max 0 (c.height - minS) = c.height - minS := max_eq_right (by linarith)
  rw [hmx, hmy]
  have hx0 : (0 : ℚ) ≤ clamp r.x 0 (c.width - minS) := clamp_nonneg _ _ (by linarith)
  have hxle : clamp r.x 0 (c.width - minS) ≤ c.width - minS := clamp_le_hi _ _ _
  have hy0 : (0 : ℚ) ≤ clamp r.y 0 (c.height - minS) := clamp_nonneg _ _ (by linarith)
  have hyle : clamp r.y 0 (c.height - minS) ≤ c.height - minS := clamp_le_hi _ _ _
  have hwlo : minS ≤ clamp r.width minS (c.width - clamp r.x 0 (c.width - minS)) :=
    lo_le_clamp _ (by linarith)
  have hwhi : clamp r.width minS (c.width - clamp r.x 0 (c.width - minS)) ≤
      c.width - clamp r.x 0 (c.width - minS) := clamp_le_hi _ _ _
  have hhlo : minS ≤ clamp r.height minS (c.height - clamp r.y 0 (c.height - minS)) :=
    lo_le_clamp _ (by linarith)
  have hhhi : clamp r.height minS (c.height - clamp r.y 0 (c.height - minS)) ≤
      c.height - clamp r.y 0 (c.height - minS) := clamp_le_hi _ _ _
  exact ⟨⟨hx0, by linarith, hy0, by linarith⟩, hwlo, hhlo⟩

theorem splitRectEvenly_inBounds (r : Rect) (n : Nat) (d : Direction) (c : Canvas)
    (hx0 : 0 ≤ r.x) (hxw : r.x + r.width ≤ c.width)
    (hy0 : 0 ≤ r.y) (hyh : r.y + r.height ≤ c.height)
    (hw : 0 ≤ r.width) (hh : 0 ≤ r.height) :
    ∀ q ∈ splitRectEvenly r n d, rectInBounds (.rect q) c := by
  intro q hq
  rw [splitRectEvenly.eq_def] at hq
  by_cases hn : n ≤ 1
  · rw [if_pos hn] at hq
    simp at hq
    subst hq
    exact ⟨hx0, hxw, hy0, hyh⟩
  · rw [if_neg hn] at hq
    have hn1 : 1 < n := by omega
    have hn0 : (0 : ℚ) < (n : ℚ) := by exact_mod_cast Nat.zero_lt_of_lt hn1
    cases d
    · -- horizontal
      simp only [List.mem_map, List.mem_range] at hq
      obtain ⟨i, hi, hqe⟩ := hq
      subst hqe
      rw [rectInBounds]
      have hslice0 : 0 ≤ r.height / (n : ℚ) := div_nonneg hh (le_of_lt hn0)
      have hi1 : ((i : ℚ) + 1) ≤ (n : ℚ) := by
        have : (i + 1 : ℕ) ≤ n := hi
        exact_mod_cast this
      have hstep : r.height / (n : ℚ) * ((i : ℚ) + 1) ≤ r.height := by
        calc r.height / (n : ℚ) * ((i : ℚ) + 1) ≤ r.height / (n : ℚ) * (n : ℚ) :=
              mul_le_mul_of_nonneg_left hi1 hslice0
          _ = r.height := div_mul_cancel₀ _ (ne_of_gt hn0)
      have hiq : (0 : ℚ) ≤ (i : ℚ) := by positivity
      have hmul : 0 ≤ r.height / (n : ℚ) * (i : ℚ) := mul_nonneg hslice0 hiq
      exact ⟨hx0, hxw, by linarith, by nlinarith [hstep]⟩
    · -- vertical
      simp only [List.mem_map, List.mem_range] at hq
      obtain ⟨i, hi, hqe⟩ := hq
      subst hqe
      rw [rectInBounds]
      have hslice0 : 0 ≤ r.width / (n : ℚ) := div_nonneg hw (le_of_lt hn0)
      have hi1 : ((i : ℚ) + 1) ≤ (n : ℚ) := by
        have : (i + 1 : ℕ) ≤ n := hi
        exact_mod_cast this
      have hstep : r.width / (n : ℚ) * ((i : ℚ) + 1) ≤ r.width := by
        calc r.width / (n : ℚ) * ((i : ℚ) + 1) ≤ r.width / (n : ℚ) * (n : ℚ) :=
              mul_le_mul_of_nonneg_left hi1 hslice0
          _ = r.width := div_mul_cancel₀ _ (ne_of_gt hn0)
      have hiq : (0 : ℚ) ≤ (i : ℚ) := by positivity
      have hmul : 0 ≤ r.width / (n : ℚ) * (i : ℚ) := mul_nonneg hslice0 hiq
      exact ⟨by linarith, by nlinarith [hstep], hy0, hyh⟩

theorem snd_mem_of_mem_enum {l : List α} {i : Nat} {x : α} (h : (i, x) ∈ l.enum) : x ∈ l := by
  obtain ⟨-, hlt, hEq⟩ := List.mem_enumFrom h
  rw [hEq]
  exact List.getElem_mem _

theorem pasteStep_foldl_inBounds (env : Env) (c : Canvas) (dx dy : Coord)
    (nameSuffix : Option String) (hW : MIN_SIZE ≤ c.width) (hH : MIN_SIZE ≤ c.height) :
    ∀ (pasted : List Area) (acc : List Area × List String),
      (∀ x ∈ acc.1, rectInBounds x.shape c) →
      ∀ x ∈ (pasted.foldl (pasteStep env c dx dy nameSuffix) acc).1, rectInBounds x.shape c := by
  intro pasted
  induction pasted with
  | nil => exact fun acc hacc x hx => hacc x hx
  | cons p rest ih =>
    intro acc hacc
    rw [List.foldl_cons]
    apply ih
    intro x hx
    rw [pasteStep.eq_def] at hx
    cases hp : p.shape with
    | rect r =>
      rw [hp] at hx
      simp only [] at hx
      rcases List.mem_append.1 hx with h | h
      · exact hacc x h
      · simp at h
        subst h
        exact (constrainRect_spec _ c MIN_SIZE hW hH).1
    | ellipse e =>
      rw [hp] at hx
      simp only [] at hx
      rcases List.mem_append.1 hx with h | h
      · exact hacc x h
      · simp at h
        subst h
        exact trivial
    | polygon pts rot holes =>
      rw [hp] at hx
      simp only [] at hx
      by_cases hlen : (translatePolygon pts dx dy).length < 3
      · rw [if_pos hlen] at hx
        exact hacc x hx
      · rw [if_neg hlen] at hx
        rcases List.mem_append.1 hx with h | h
        · exact hacc x h
        · simp at h
          subst h
          exact trivial
    | multipolygon polys holes =>
      rw [hp] at hx
      simp only [] at hx
      by_cases hlen : (polys.map (fun poly => translatePolygon poly dx dy)).isEmpty ||
          (polys.map (fun poly => translatePolygon poly dx dy)).any (fun poly => poly.length < 3)
      · rw [if_pos hlen] at hx
        exact hacc x hx
      · rw [if_neg hlen] at hx
        rcases List.mem_append.1 hx with h | h
        · exact hacc x h
        · simp at h
          subst h
          exact trivial

/-- C3 (amended): after `area/move`, `area/resize`, `area/create` or
`area/paste` on a plan whose canvas is at least `MIN_SIZE` wide and tall
and whose existing rect areas fit the canvas, every rect area of the
result is either carried over unchanged from the input plan or lies
within `[0, canvas.width] × [0, canvas.height]`. Ellipses carry no such
guarantee: they are translated without clamping (see the counterexample). -/
theorem claim3_clamp_amended (env : Env) (plan : Plan) (cmd : Command)
    (hW : MIN_SIZE ≤ plan.canvas.width) (hH : MIN_SIZE ≤ plan.canvas.height)
    (hfit : ∀ a ∈ plan.areas, rectFits a.shape plan.canvas)
    (hcmd : isMoveResizeCreatePaste cmd) :
    ∀ a ∈ (performCommand env plan cmd).plan.areas,
      a ∈ plan.areas ∨ rectInBounds a.shape (performCommand env plan cmd).plan.canvas := by
  cases cmd
  case areaMove id dx dy =>
    intro a ha
    cases hfind : findArea plan id with
    | none =>
      simp only [performCommand, hfind, noop] at ha
      exact Or.inl ha
    | some target =>
      cases htar : target.shape with
      | rect r =>
        simp only [performCommand, hfind, htar, ensureUpdated] at ha ⊢
        rcases mem_updateFirst ha with h | ⟨t', ht'mem, ht'p, hEq⟩
        · exact Or.inl h
        · right
          subst hEq
          have hfit' := hfit target (findArea_some_mem hfind)
          rw [htar] at hfit'
          exact moveRect_inBounds r dx dy plan.canvas hfit'.1 hfit'.2
      | ellipse e =>
        simp only [performCommand, hfind, htar, noop] at ha
        exact Or.inl ha
      | polygon pts rot holes =>
        simp only [performCommand, hfind, htar, noop] at ha
        exact Or.inl ha
      | multipolygon polys holes =>
        simp only [performCommand, hfind, htar, noop] at ha
        exact Or.inl ha
  case areaResize id handle dx dy =>
    intro a ha
    cases hfind : findArea plan id with
    | none =>
      simp only [performCommand, hfind, noop] at ha
      exact Or.inl ha
    | some target =>
      cases htar : target.shape with
      | rect r =>
        simp only [performCommand, hfind, htar, ensureUpdated] at ha ⊢
        rcases mem_updateFirst ha with h | ⟨t', ht'mem, ht'p, hEq⟩
        · exact Or.inl h
        · right
          subst hEq
          exact applyRectResize_inBounds r handle dx dy plan.canvas MIN_SIZE hW hH
      | ellipse e =>
        simp only [performCommand, hfind, htar, noop] at ha
        exact Or.inl ha
      | polygon pts rot holes =>
        simp only [performCommand, hfind, htar, noop] at ha
        exact Or.inl ha
      | multipolygon polys holes =>
        simp only [performCommand, hfind, htar, noop] at ha
        exact Or.inl ha
  case areaCreate rect partitions direction fill stroke name parentId =>
    intro a ha
    simp only [performCommand, ensureUpdated] at ha ⊢
    rcases List.mem_append.1 ha with h | h
    · exact Or.inl h
    · right
      simp only [List.mem_map] at h
      obtain ⟨⟨i, q⟩, hmem, hEq⟩ := h
      subst hEq
      have hq := snd_mem_of_mem_enum hmem
      have hc := constrainRect_spec rect plan.canvas MIN_SIZE hW hH
      have hw0 : (0 : ℚ) ≤ (constrainRectToBounds rect plan.canvas MIN_SIZE).width :=
        le_trans (by norm_num [MIN_SIZE]) hc.2.1
      have hh0 : (0 : ℚ) ≤ (constrainRectToBounds rect plan.canvas MIN_SIZE).height :=
        le_trans (by norm_num [MIN_SIZE]) hc.2.2
      exact splitRectEvenly_inBounds _ _ _ plan.canvas hc.1.1 hc.1.2.1 hc.1.2.2.1 hc.1.2.2.2
        hw0 hh0 q hq
  case areaPaste pasted dx dy nameSuffix =>
    intro a ha
    have hcanvas : (performCommand env plan (.areaPaste pasted dx dy nameSuffix)).plan.canvas =
        plan.canvas := by
      simp only [performCommand]
      by_cases hempty :
          (pasted.foldl (pasteStep env plan.canvas dx dy nameSuffix) ([], [])).2.isEmpty
      · rw [if_pos hempty]
        rfl
      · rw [if_neg hempty]
        rfl
    rw [hcanvas]
    simp only [performCommand] at ha
    by_cases hempty :
        (pasted.foldl (pasteStep env plan.canvas dx dy nameSuffix) ([], [])).2.isEmpty
    · rw [if_pos hempty] at ha
      exact Or.inl ha
    · rw [if_neg hempty] at ha
      simp only [ensureUpdated] at ha
      rcases List.mem_append.1 ha with h | h
      · exact Or.inl h
      · exact Or.inr (pasteStep_foldl_inBounds env plan.canvas dx dy nameSuffix hW hH pasted
          ([], []) (by intro x hx; simp at hx) a h)
  all_goals exact absurd hcmd (fun h => h)

/-- An ellipse area used to exhibit the missing ellipse clamping. -/
def ellipseArea0 : Area := ⟨"e1", "E", "#fff", "#000", 1, .ellipse ⟨5, 5, 2, 2⟩, none⟩

theorem claim3_cex :
    ¬ (∀ a ∈ (performCommand testEnv demoPlan (.areaPaste [ellipseArea0] 100 0 none)).plan.areas,
        ellipseInBounds a.shape
          (performCommand testEnv demoPlan (.areaPaste [ellipseArea0] 100 0 none)).plan.canvas) := by
  intro h
  have hm : (⟨"uid0", "E", "#fff", "#000", 1, .ellipse ⟨105, 5, 2, 2⟩, none⟩ : Area) ∈
      (performCommand testEnv demoPlan (.areaPaste [ellipseArea0] 100 0 none)).plan.areas := by
    norm_num [performCommand, pasteStep, testEnv, demoPlan, ellipseArea0, ensureUpdated]
    exact Or.inr rfl
  have hcanv : (performCommand testEnv demoPlan
      (.areaPaste [ellipseArea0] 100 0 none)).plan.canvas = demoPlan.canvas := by
    norm_num [performCommand, pasteStep, testEnv, demoPlan, ellipseArea0, ensureUpdated]
  have hbad := h _ hm
  rw [hcanv] at hbad
  obtain ⟨-, hb, -, -⟩ := hbad
  norm_num [demoPlan] at hb

theorem claim3_witness :
    ({ demoArea with shape := .rect ⟨1, 1, 4, 2, none, none⟩ } : Area) ∈ demoPlan.areas ∨
    rectInBounds ({ demoArea with shape := .rect ⟨1, 1, 4, 2, none, none⟩ } : Area).shape
      (performCommand testEnv demoPlan (.areaMove "r1" 1 1)).plan.canvas :=
  claim3_clamp_amended testEnv demoPlan (.areaMove "r1" 1 1)
    (by norm_num [MIN_SIZE, demoPlan])
    (by norm_num [MIN_SIZE, demoPlan])
    (by intro a ha
        simp [demoPlan] at ha
        subst ha
        norm_num [rectFits, demoArea, demoPlan])
    trivial
    { demoArea with shape := .rect ⟨1, 1, 4, 2, none, none⟩ }
    (by norm_num [performCommand, findArea, demoPlan, demoArea, moveRect, clamp,
          updateFirst, testEnv, ensureUpdated])

/-! ## Claim C4: subtract semantics -/

theorem pickLargest_cons (t b : Area) (rest : List Area) :
    pickLargest t (b :: rest) =
      pickLargest (if shapeArea b.shape > shapeArea t.shape then b else t) rest := by
  rw [pickLargest, pickLargest, List.foldl_cons]

theorem pickLargest_spec (t : Area) (ts : List Area) :
    (∃ l₁ l₂, t :: ts = l₁ ++ pickLargest t ts :: l₂ ∧
      ∀ x ∈ l₁, shapeArea x.shape < shapeArea (pickLargest t ts).shape) ∧
    ∀ x ∈ t :: ts, shapeArea x.shape ≤ shapeArea (pickLargest t ts).shape := by
  induction ts generalizing t with
  | nil =>
    refine ⟨⟨[], [], rfl, by simp⟩, ?_⟩
    intro x hx
    rw [List.mem_singleton] at hx
    subst hx
    simp [pickLargest]
  | cons b rest ih =>
    rw [pickLargest_cons]
    by_cases hgt : shapeArea b.shape > shapeArea t.shape
    · rw [if_pos hgt]
      obtain ⟨⟨l₁, l₂, hdec, hstrict⟩, hle⟩ := ih b
      refine ⟨⟨t :: l₁, l₂, ?_, ?_⟩, ?_⟩
      · rw [List.cons_append, ← hdec]
      · intro x hx
        rcases List.mem_cons.1 hx with rfl | hx
        · exact lt_of_lt_of_le hgt (hle b (List.mem_cons_self _ _))
        · exact hstrict x hx
      · intro x hx
        rcases List.mem_cons.1 hx with rfl | hx
        · exact le_of_lt (lt_of_lt_of_le hgt (hle b (List.mem_cons_self _ _)))
        · exact hle x hx
    · rw [if_neg hgt]
      push_neg at hgt
      obtain ⟨⟨l₁, l₂, hdec, hstrict⟩, hle⟩ := ih t
      cases l₁ with
      | nil =>
        rw [List.nil_append] at hdec
        injection hdec with h1 h2
        refine ⟨⟨[], b :: rest, ?_, by simp⟩, ?_⟩
        · rw [List.nil_append, ← h1]
        · intro x hx
          rcases List.mem_cons.1 hx with rfl | hx
          · exact hle _ (List.mem_cons_self _ _)
          · rcases List.mem_cons.1 hx with rfl | hx
            · exact le_trans hgt (hle t (List.mem_cons_self _ _))
            · exact hle x (List.mem_cons_of_mem t hx)
      | cons hd l₁' =>
        rw [List.cons_append] at hdec
        injection hdec with h1 h2
        subst h1
        refine ⟨⟨t :: b :: l₁', l₂, ?_, ?_⟩, ?_⟩
        · rw [List.cons_append, List.cons_append, ← h2]
        · intro x hx
          have hhdlt := hstrict t (List.mem_cons_self _ _)
          rcases List.mem_cons.1 hx with rfl | hx
          · exact hhdlt
          · rcases List.mem_cons.1 hx with rfl | hx
            · exact lt_of_le_of_lt hgt hhdlt
            · exact hstrict x (List.mem_cons_of_mem _ hx)
        · intro x hx
          rcases List.mem_cons.1 hx with rfl | hx
          · exact hle _ (List.mem_cons_self _ _)
          · rcases List.mem_cons.1 hx with rfl | hx
            · exact le_trans hgt (hle t (List.mem_cons_self _ _))
            · exact hle x (List.mem_cons_of_mem _ hx)

theorem mem_updateFirst_of_neg {p : α → Bool} {f : α → α} {l : List α} {a : α}
    (ha : a ∈ l) (hpa : p a = false) : a ∈ updateFirst p f l := by
  induction l with
  | nil => simp at ha
  | cons b rest ih =>
    rw [updateFirst]
    by_cases hb : p b
    · rw [if_pos hb]
      rcases List.mem_cons.1 ha with rfl | ha
      · rw [hb] at hpa
        exact absurd hpa (by simp)
      · exact List.mem_cons_of_mem _ ha
    · rw [if_neg hb]
      rcases List.mem_cons.1 ha with rfl | ha
      · exact List.mem_cons_self _ _
      · exact List.mem_cons_of_mem _ (ih ha)

theorem updateFirst_exists (p : α → Bool) (f : α → α) {l : List α}
    (h : ∃ x ∈ l, p x = true) : ∃ b ∈ l, p b = true ∧ f b ∈ updateFirst p f l := by
  induction l with
  | nil => simp at h
  | cons a rest ih =>
    rw [updateFirst]
    by_cases hb : p a
    · rw [if_pos hb]
      exact ⟨a, List.mem_cons_self _ _, hb, List.mem_cons_self _ _⟩
    · rw [if_neg hb]
      obtain ⟨x, hx, hpx⟩ := h
      rcases List.mem_cons.1 hx with rfl | hx
      · exact absurd hpx (by simp [hb])
      · obtain ⟨b, hbmem, hbp, hbin⟩ := ih ⟨x, hx, hpx⟩
        exact ⟨b, List.mem_cons_of_mem _ hbmem, hbp, List.mem_cons_of_mem _ hbin⟩

theorem targets_id_mem (plan : Plan) (ids : List String) :
    ∀ x ∈ ids.filterMap (findArea plan), x.id ∈ ids := by
  intro x hx
  rcases List.mem_filterMap.1 hx with ⟨i, hi, hfind⟩
  rw [findArea_some_id hfind]
  exact hi

theorem targets_mem_plan (plan : Plan) (ids : List String) :
    ∀ x ∈ ids.filterMap (findArea plan), x ∈ plan.areas := by
  intro x hx
  rcases List.mem_filterMap.1 hx with ⟨i, hi, hfind⟩
  exact findArea_some_mem hfind

/-- The post-processed boolean difference `subject − union(cutters)` of the
subtract command, stated from its orchestration pieces. -/
def subtractProcessed (env : Env) (targets : List Area) (base : Area) :
    List (List Pt × List (List Pt)) :=
  processRings (env.ops.difference (shapeToPolygons env.circle base.shape)
    ((targets.filter (fun a => a.id != base.id)).flatMap
      (fun a => shapeToPolygons env.circle a.shape)))

/-- C4: with at least two resolvable targets, the subject of
`area/subtract` is the first target of largest computed area (earlier
targets are strictly smaller, no target is larger); when the processed
difference is empty, all targets are removed and the selection is empty;
otherwise the subject's id survives with its shape replaced by the
difference result, all other targets are removed, areas outside the
target set are kept, and the subject is selected. -/
theorem claim4_subtract (env : Env) (plan : Plan) (ids : List String) (t t2 : Area)
    (ts : List Area)
    (hids : 2 ≤ ids.length)
    (htargets : ids.filterMap (findArea plan) = t :: t2 :: ts) :
    (∃ l₁ l₂, t :: t2 :: ts = l₁ ++ pickLargest t (t2 :: ts) :: l₂ ∧
      ∀ x ∈ l₁, shapeArea x.shape < shapeArea (pickLargest t (t2 :: ts)).shape) ∧
    (∀ x ∈ t :: t2 :: ts, shapeArea x.shape ≤ shapeArea (pickLargest t (t2 :: ts)).shape) ∧
    (if (subtractProcessed env (t :: t2 :: ts) (pickLargest t (t2 :: ts))).isEmpty then
      (performCommand env plan (.areaSubtract ids)).plan.areas =
        plan.areas.filter (fun a => !(ids.contains a.id)) ∧
      (performCommand env plan (.areaSubtract ids)).selection = some ⟨[]⟩
    else
      (∃ a ∈ (performCommand env plan (.areaSubtract ids)).plan.areas,
        a.id = (pickLargest t (t2 :: ts)).id ∧
        a.shape = shapeOfProcessed
          (subtractProcessed env (t :: t2 :: ts) (pickLargest t (t2 :: ts)))) ∧
      (∀ a ∈ (performCommand env plan (.areaSubtract ids)).plan.areas,
        a.id ∈ ids → a.id = (pickLargest t (t2 :: ts)).id) ∧
      (∀ a ∈ plan.areas, a.id ∉ ids →
        a ∈ (performCommand env plan (.areaSubtract ids)).plan.areas) ∧
      (performCommand env plan (.areaSubtract ids)).selection =
        some ⟨[(pickLargest t (t2 :: ts)).id]⟩) := by
  obtain ⟨hdec, hle⟩ := pickLargest_spec t (t2 :: ts)
  refine ⟨hdec, hle, ?_⟩
  have hlen : ¬ ids.length < 2 := by omega
  set base := pickLargest t (t2 :: ts) with hbase
  set processed := subtractProcessed env (t :: t2 :: ts) base with hproc
  set kept := plan.areas.filter (fun a => a.id == base.id || !(ids.contains a.id)) with hkept
  have hbase_targets : base ∈ t :: t2 :: ts := by
    obtain ⟨l₁, l₂, hd, -⟩ := hdec
    rw [hd]
    exact List.mem_append_right _ (List.mem_cons_self _ _)
  have hbase_plan : base ∈ plan.areas := by
    apply targets_mem_plan plan ids
    rw [htargets]
    exact hbase_targets
  have hbid : base.id ∈ ids := by
    apply targets_id_mem plan ids
    rw [htargets]
    exact hbase_targets
  have hbase_kept : base ∈ kept := by
    rw [hkept]
    refine List.mem_filter.2 ⟨hbase_plan, by simp⟩
  have hfound : ∃ b, findArea { plan with areas := kept } base.id = some b := by
    rw [findArea]
    have hsome : (kept.find? (fun a => a.id == base.id)).isSome :=
      List.find?_isSome.2 ⟨base, hbase_kept, by simp⟩
    exact Option.isSome_iff_exists.1 hsome
  obtain ⟨b, hb⟩ := hfound
  have hperf : performCommand env plan (.areaSubtract ids) =
      (if processed.isEmpty then
        ⟨ensureUpdated env.now
           { plan with areas := plan.areas.filter (fun a => !(ids.contains a.id)) },
         some ⟨[]⟩, some "Subtract areas"⟩
      else
        ⟨ensureUpdated env.now
           { plan with areas := updateFirst (fun a => a.id == base.id) (fun a => { a with shape := shapeOfProcessed processed }) kept },
         some ⟨[base.id]⟩, some "Subtract areas"⟩) := by
    rw [performCommand.eq_def]
    simp only []
    rw [if_neg hlen, htargets]
    simp only [hproc, subtractProcessed, hbase, hkept]
    by_cases hempty : (processRings (env.ops.difference
        (shapeToPolygons env.circle (pickLargest t (t2 :: ts)).shape)
        (((t :: t2 :: ts).filter (fun a => a.id != (pickLargest t (t2 :: ts)).id)).flatMap
          (fun a => shapeToPolygons env.circle a.shape)))).isEmpty
    · rw [if_pos hempty, if_pos hempty]
    · rw [if_neg hempty, if_neg hempty]
      rw [← hbase, ← hkept]
      rw [hb]
  by_cases hempty : processed.isEmpty
  · rw [if_pos hempty]
    rw [hperf, if_pos hempty]
    exact ⟨rfl, rfl⟩
  · rw [if_neg hempty]
    rw [hperf, if_neg hempty]
    refine ⟨?_, ?_, ?_, rfl⟩
    · obtain ⟨c, hcmem, hcp, hcin⟩ := updateFirst_exists (fun a => a.id == base.id)
        (fun a => { a with shape := shapeOfProcessed processed })
        ⟨base, hbase_kept, beq_self_eq_true base.id⟩
      exact ⟨{ c with shape := shapeOfProcessed processed }, hcin, eq_of_beq hcp, rfl⟩
    · intro a ha hain
      have hmm : a ∈ updateFirst (fun a => a.id == base.id)
          (fun a => { a with shape := shapeOfProcessed processed }) kept := ha
      rcases mem_updateFirst hmm with h | ⟨c, hcmem, hcp, hEq⟩
      · have hcond := (List.mem_filter.1 (hkept ▸ h)).2
        rcases Bool.or_eq_true _ _ ▸ hcond with hc | hc
        · exact eq_of_beq hc
        · exact absurd (by simpa using hain : ids.contains a.id = true)
            (by simpa using hc)
      · subst hEq
        simpa using hcp
    · intro a ha hnin
      have hak : a ∈ kept := by
        rw [hkept]
        refine List.mem_filter.2 ⟨ha, ?_⟩
        simp [hnin]
      apply mem_updateFirst_of_neg hak
      have hne : a.id ≠ base.id := fun hEq => hnin (hEq ▸ hbid)
      exact beq_eq_false_iff_ne.mpr hne

theorem claim4_witness :
    ∃ l₁ l₂, [overlapAreaA, overlapAreaB] = l₁ ++ pickLargest overlapAreaA [overlapAreaB] :: l₂ ∧
      ∀ x ∈ l₁, shapeArea x.shape < shapeArea (pickLargest overlapAreaA [overlapAreaB]).shape :=
  (claim4_subtract testEnv overlapPlan ["a1", "b1"] overlapAreaA overlapAreaB []
    (by norm_num) rfl).1

/-! ## History manager lemmas (claims C2 and C5) -/

theorem takeLast_of_le {l : List α} {n : Nat} (h : l.length ≤ n) : takeLast n l = l := by
  rw [takeLast]
  have h0 : l.length - n = 0 := by omega
  rw [h0, List.drop_zero]

theorem takeLast_cons_of_le {l : List α} {n : Nat} (a : α) (h : n ≤ l.length) :
    takeLast n (a :: l) = takeLast n l := by
  rw [takeLast, takeLast]
  have h1 : (a :: l).length - n = (l.length - n) + 1 := by
    rw [List.length_cons]
    omega
  rw [h1, List.drop_succ_cons]

theorem takeLast_length_le (n : Nat) (l : List α) : (takeLast n l).length ≤ n := by
  rw [takeLast, List.length_drop]
  omega

theorem takeLast_idem_append (n : Nat) (l l2 : List α) :
    takeLast n (takeLast n l ++ l2) = takeLast n (l ++ l2) := by
  induction l with
  | nil =>
    have h0 : takeLast n ([] : List α) = [] := by
      rw [takeLast]
      simp
    rw [h0]
  | cons a l ih =>
    by_cases h : l.length < n
    · rw [takeLast_of_le (show (a :: l).length ≤ n by simp; omega)]
    · have hn : n ≤ l.length := by omega
      rw [takeLast_cons_of_le a hn]
      rw [List.cons_append, takeLast_cons_of_le a (by rw [List.length_append]; omega)]
      exact ih

theorem applyCmd_noop {c : CallCtx} {s : StoreState} {cmd : Command}
    (h : (performCommand c.env s.plan cmd).plan = s.plan) :
    (applyCmd c s cmd).plan = s.plan ∧ (applyCmd c s cmd).history = s.history := by
  rw [applyCmd]
  simp only [h, if_pos]
  cases (performCommand c.env s.plan cmd).selection <;> exact ⟨rfl, rfl⟩

theorem applyCmd_eff {c : CallCtx} {s : StoreState} {cmd : Command}
    (h : ¬ (performCommand c.env s.plan cmd).plan = s.plan) :
    (applyCmd c s cmd).plan = (performCommand c.env s.plan cmd).plan ∧
    (applyCmd c s cmd).history.undo = takeLast 100 (s.history.undo ++
      [⟨cmd, (performCommand c.env s.plan cmd).description.getD (cmdTypeStr cmd),
        s.plan, (performCommand c.env s.plan cmd).plan, c.ts⟩]) := by
  rw [applyCmd]
  rw [if_neg h]
  exact ⟨rfl, rfl⟩

theorem recordsOf_length : ∀ (cs : List (CallCtx × Command)) (s : StoreState),
    allEffective s cs = true → (recordsOf s cs).length = cs.length := by
  intro cs
  induction cs with
  | nil => intro s h; rfl
  | cons c rest ih =>
    intro s h
    obtain ⟨c0, cmd⟩ := c
    rw [allEffective] at h
    by_cases hno : (performCommand c0.env s.plan cmd).plan = s.plan
    · rw [if_pos hno] at h
      exact absurd h (by simp)
    · rw [if_neg hno] at h
      rw [recordsOf, if_neg hno, List.length_cons, ih _ h, List.length_cons]

theorem applyAll_spec : ∀ (cs : List (CallCtx × Command)) (s : StoreState),
    s.history.undo.length ≤ 100 →
    (applyAll s cs).history.undo = takeLast 100 (s.history.undo ++ recordsOf s cs) ∧
    Chained s.plan (recordsOf s cs) (applyAll s cs).plan := by
  intro cs
  induction cs with
  | nil =>
    intro s h
    refine ⟨?_, ?_⟩
    · rw [applyAll, recordsOf, List.append_nil, takeLast_of_le h]
    · rw [applyAll, recordsOf, Chained]
  | cons c rest ih =>
    intro s h
    obtain ⟨c0, cmd⟩ := c
    rw [applyAll, recordsOf]
    by_cases hno : (performCommand c0.env s.plan cmd).plan = s.plan
    · rw [if_pos hno]
      obtain ⟨hp, hh⟩ := applyCmd_noop hno
      obtain ⟨ih1, ih2⟩ := ih (applyCmd c0 s cmd) (by rw [hh]; exact h)
      refine ⟨?_, ?_⟩
      · rw [ih1, hh]
      · rw [hp] at ih2
        exact ih2
    · rw [if_neg hno]
      obtain ⟨hp, hh⟩ := applyCmd_eff hno
      obtain ⟨ih1, ih2⟩ := ih (applyCmd c0 s cmd)
        (by rw [hh]; exact takeLast_length_le _ _)
      refine ⟨?_, ?_⟩
      · rw [ih1, hh, takeLast_idem_append, List.append_assoc, List.singleton_append]
      · rw [Chained]
        refine ⟨rfl, ?_⟩
        rw [← hp]
        exact ih2

theorem chained_append_singleton {l : List HistoryRecord} {r : HistoryRecord}
    {p0 pn : Plan} :
    Chained p0 (l ++ [r]) pn ↔ Chained p0 l r.before ∧ r.after = pn := by
  induction l generalizing p0 with
  | nil =>
    simp only [List.nil_append, Chained]
    constructor
    · rintro ⟨h1, h2⟩
      exact ⟨h1.symm, h2⟩
    · rintro ⟨h1, h2⟩
      exact ⟨h1.symm, h2⟩
  | cons a l ih =>
    constructor
    · intro h
      rw [List.cons_append, Chained] at h
      obtain ⟨h1, h2⟩ := h
      rw [ih] at h2
      refine ⟨?_, h2.2⟩
      rw [Chained]
      exact ⟨h1, h2.1⟩
    · rintro ⟨h1, h2⟩
      rw [Chained] at h1
      rw [List.cons_append, Chained]
      exact ⟨h1.1, ih.mpr ⟨h1.2, h2⟩⟩

theorem undoN_add (m n : Nat) : ∀ s : StoreState, undoN (m + n) s = undoN m (undoN n s) := by
  induction n with
  | zero => intro s; rfl
  | succ n ihn =>
    intro s
    have h1 : m + (n + 1) = (m + n) + 1 := by omega
    rw [h1, undoN, ihn, undoN]

theorem undoN_spec (rs : List HistoryRecord) :
    ∀ (p0 pn : Plan) (sel : Selection) (rds : List HistoryRecord),
      Chained p0 rs pn →
      ∃ sel2, undoN rs.length ⟨pn, sel, ⟨rs, rds⟩⟩ = ⟨p0, sel2, ⟨[], rs ++ rds⟩⟩ := by
  induction rs using List.reverseRecOn with
  | nil =>
    intro p0 pn sel rds hch
    rw [Chained] at hch
    subst hch
    exact ⟨sel, by simp [undoN]⟩
  | append_singleton l r ih =>
    intro p0 pn sel rds hch
    obtain ⟨hch1, hafter⟩ := chained_append_singleton.mp hch
    have hlen : (l ++ [r]).length = l.length + 1 := by simp
    rw [hlen, undoN]
    have hstep : undoStep ⟨pn, sel, ⟨l ++ [r], rds⟩⟩ = ⟨r.before, ⟨[]⟩, ⟨l, r :: rds⟩⟩ := by
      rw [undoStep]
      rw [show (l ++ [r]).getLast? = some r from by simp]
      rw [show (l ++ [r]).dropLast = l from by simp]
    rw [hstep]
    obtain ⟨sel2, hres⟩ := ih p0 r.before ⟨[]⟩ (r :: rds) hch1
    refine ⟨sel2, ?_⟩
    rw [hres, List.append_assoc, List.singleton_append]

theorem redoN_spec (rs : List HistoryRecord) :
    ∀ (q pn : Plan) (sel : Selection) (us rds : List HistoryRecord),
      Chained q rs pn →
      ∃ sel2, redoN rs.length ⟨q, sel, ⟨us, rs ++ rds⟩⟩ = ⟨pn, sel2, ⟨us ++ rs, rds⟩⟩ := by
  induction rs with
  | nil =>
    intro q pn sel us rds hch
    rw [Chained] at hch
    subst hch
    exact ⟨sel, by simp [redoN]⟩
  | cons r rest ih =>
    intro q pn sel us rds hch
    rw [Chained] at hch
    obtain ⟨hb, hch'⟩ := hch
    rw [List.length_cons, redoN]
    have hstep : redoStep ⟨q, sel, ⟨us, (r :: rest) ++ rds⟩⟩ =
        ⟨r.after, ⟨[]⟩, ⟨us ++ [r], rest ++ rds⟩⟩ := rfl
    rw [hstep]
    obtain ⟨sel2, hres⟩ := ih r.after pn ⟨[]⟩ (us ++ [r]) rds hch'
    refine ⟨sel2, ?_⟩
    rw [hres, List.append_assoc, List.singleton_append]

/-- C2 (amended): starting from an empty history, after applying up to 100
effective commands, undoing once per command reproduces the starting
plan, and redoing once per command reproduces the final plan. (Beyond
100 commands the capped undo stack evicts the oldest records and the
round trip fails — see the counterexample.) -/
theorem claim2_undo_redo_amended (s0 : StoreState) (cs : List (CallCtx × Command))
    (hh : s0.history = ⟨[], []⟩)
    (heff : allEffective s0 cs = true)
    (hlen : cs.length ≤ 100) :
    (undoN cs.length (applyAll s0 cs)).plan = s0.plan ∧
    (redoN cs.length (undoN cs.length (applyAll s0 cs))).plan = (applyAll s0 cs).plan := by
  have h0 : s0.history.undo.length ≤ 100 := by
    rw [hh]
    simp
  obtain ⟨hundo, hch⟩ := applyAll_spec cs s0 h0
  have hrecl : (recordsOf s0 cs).length = cs.length := recordsOf_length cs s0 heff
  have hundo' : (applyAll s0 cs).history.undo = recordsOf s0 cs := by
    rw [hundo, hh]
    simp only [List.nil_append]
    exact takeLast_of_le (by rw [hrecl]; exact hlen)
  have heta : applyAll s0 cs =
      ⟨(applyAll s0 cs).plan, (applyAll s0 cs).selection,
        ⟨recordsOf s0 cs, (applyAll s0 cs).history.redo⟩⟩ := by
    rw [← hundo']
  obtain ⟨sel2, hu⟩ := undoN_spec (recordsOf s0 cs) s0.plan (applyAll s0 cs).plan
    (applyAll s0 cs).selection (applyAll s0 cs).history.redo hch
  constructor
  · rw [← hrecl]
    rw [heta] at hu ⊢
    rw [hu]
  · rw [← hrecl]
    conv_lhs => rw [heta]
    rw [hu]
    obtain ⟨sel3, hr⟩ := redoN_spec (recordsOf s0 cs) s0.plan (applyAll s0 cs).plan
      sel2 [] (applyAll s0 cs).history.redo hch
    rw [hr]

/-- C5: starting from an empty history, after 150 effective commands the
undo stack holds exactly 100 records: the records of the 100 most recent
effective commands in application order (newest last); the oldest 50 are
evicted. -/
theorem claim5_history_bound (s0 : StoreState) (cs : List (CallCtx × Command))
    (hh : s0.history = ⟨[], []⟩)
    (heff : allEffective s0 cs = true)
    (hlen : cs.length = 150) :
    (recordsOf s0 cs).length = 150 ∧
    (applyAll s0 cs).history.undo = (recordsOf s0 cs).drop 50 ∧
    (applyAll s0 cs).history.undo.length = 100 := by
  have h0 : s0.history.undo.length ≤ 100 := by
    rw [hh]
    simp
  obtain ⟨hundo, -⟩ := applyAll_spec cs s0 h0
  have hrecl : (recordsOf s0 cs).length = 150 := by
    rw [recordsOf_length cs s0 heff, hlen]
  have hdrop : (applyAll s0 cs).history.undo = (recordsOf s0 cs).drop 50 := by
    rw [hundo, hh]
    simp only [List.nil_append]
    rw [takeLast, hrecl]
  refine ⟨hrecl, hdrop, ?_⟩
  rw [hdrop, List.length_drop, hrecl]

/-- The impure call context used by the history test scenarios. -/
def resizeCtx : CallCtx := ⟨testEnv, 0⟩

/-- A sequence of `k` plan/resize-boundary commands with widths
`start, start+1, …` — each one effective since the width always changes. -/
def resizeCmds : Nat → Nat → List (CallCtx × Command)
  | _, 0 => []
  | start, k + 1 =>
    (resizeCtx, .planResizeBoundary (some ((start : ℚ))) none) :: resizeCmds (start + 1) k

theorem resizeCmds_length : ∀ (start k : Nat), (resizeCmds start k).length = k := by
  intro start k
  induction k generalizing start with
  | zero => rfl
  | succ k ih =>
    rw [resizeCmds, List.length_cons, ih]

theorem resize_perform_plan (env : Env) (plan : Plan) (w : ℚ) (hw : (1:ℚ)/2 ≤ w) :
    (performCommand env plan (.planResizeBoundary (some w) none)).plan =
      { plan with canvas := { plan.canvas with width := w }
                  meta := { plan.meta with updatedAt := env.now } } := by
  simp only [performCommand, ensureUpdated]
  rw [max_eq_left hw]

theorem resize_effective (env : Env) (plan : Plan) (w : ℚ) (hw : (1:ℚ)/2 ≤ w)
    (hne : plan.canvas.width ≠ w) :
    ¬ (performCommand env plan (.planResizeBoundary (some w) none)).plan = plan := by
  rw [resize_perform_plan env plan w hw]
  intro h
  have hcw := congrArg (fun p => p.canvas.width) h
  simp only [] at hcw
  exact hne hcw.symm

theorem resize_applyCmd_width (s : StoreState) (w : ℚ) (hw : (1:ℚ)/2 ≤ w)
    (hne : s.plan.canvas.width ≠ w) :
    (applyCmd resizeCtx s (.planResizeBoundary (some w) none)).plan.canvas.width = w := by
  obtain ⟨hp, -⟩ := applyCmd_eff (resize_effective resizeCtx.env s.plan w hw hne)
  rw [hp, resize_perform_plan resizeCtx.env s.plan w hw]

theorem allEffective_resize : ∀ (k start : Nat) (s : StoreState), 1 ≤ start →
    s.plan.canvas.width ≠ (start : ℚ) →
    allEffective s (resizeCmds start k) = true := by
  intro k
  induction k with
  | zero => intro start s _ _; rfl
  | succ k ih =>
    intro start s hstart hne
    have hw : (1:ℚ)/2 ≤ (start : ℚ) := by
      have h1 : (1:ℚ) ≤ (start : ℚ) := by exact_mod_cast hstart
      linarith
    rw [resizeCmds, allEffective, if_neg (resize_effective resizeCtx.env s.plan _ hw hne)]
    apply ih (start + 1) _ (by omega)
    rw [resize_applyCmd_width s _ hw hne]
    push_cast
    intro hbad
    linarith

/-- The starting store state of the history test scenarios. -/
def histState : StoreState := ⟨demoPlan, ⟨[]⟩, ⟨[], []⟩⟩

theorem claim2_witness :
    (undoN (resizeCmds 1 2).length (applyAll histState (resizeCmds 1 2))).plan =
      histState.plan ∧
    (redoN (resizeCmds 1 2).length
      (undoN (resizeCmds 1 2).length (applyAll histState (resizeCmds 1 2)))).plan =
      (applyAll histState (resizeCmds 1 2)).plan :=
  claim2_undo_redo_amended histState (resizeCmds 1 2) rfl
    (allEffective_resize 2 1 histState (by omega) (by norm_num [histState, demoPlan]))
    (by rw [resizeCmds_length]; norm_num)

theorem claim5_witness :
    (recordsOf histState (resizeCmds 1 150)).length = 150 ∧
    (applyAll histState (resizeCmds 1 150)).history.undo =
      (recordsOf histState (resizeCmds 1 150)).drop 50 ∧
    (applyAll histState (resizeCmds 1 150)).history.undo.length = 100 :=
  claim5_history_bound histState (resizeCmds 1 150) rfl
    (allEffective_resize 150 1 histState (by omega) (by norm_num [histState, demoPlan]))
    (by rw [resizeCmds_length])

theorem claim2_cex :
    allEffective histState (resizeCmds 1 101) = true ∧
    ¬ (undoN (resizeCmds 1 101).length (applyAll histState (resizeCmds 1 101))).plan =
        histState.plan := by
  have hne1 : histState.plan.canvas.width ≠ ((1:ℕ) : ℚ) := by norm_num [histState, demoPlan]
  have heff := allEffective_resize 101 1 histState (by omega) hne1
  refine ⟨heff, ?_⟩
  have hw1 : (1:ℚ)/2 ≤ ((1:ℕ) : ℚ) := by norm_num
  have heff1 := resize_effective resizeCtx.env histState.plan _ hw1 hne1
  have h0 : histState.history.undo.length ≤ 100 := by simp [histState]
  obtain ⟨hundo, hch⟩ := applyAll_spec (resizeCmds 1 101) histState h0
  have hcs1 : resizeCmds 1 101 =
      (resizeCtx, Command.planResizeBoundary (some ((1:ℕ) : ℚ)) none) :: resizeCmds 2 100 := rfl
  set s1 := applyCmd resizeCtx histState (.planResizeBoundary (some ((1:ℕ) : ℚ)) none) with hs1
  have hs1w : s1.plan.canvas.width = ((1:ℕ) : ℚ) := resize_applyCmd_width histState _ hw1 hne1
  have heffrest : allEffective s1 (resizeCmds 2 100) = true := by
    apply allEffective_resize 100 2 s1 (by omega)
    rw [hs1w]
    push_cast
    norm_num
  have htail : (recordsOf s1 (resizeCmds 2 100)).length = 100 := by
    rw [recordsOf_length _ _ heffrest, resizeCmds_length]
  rw [hcs1, recordsOf, if_neg heff1] at hundo hch
  rw [Chained] at hch
  obtain ⟨-, hch2⟩ := hch
  have hundo2 : (applyAll histState (resizeCmds 1 101)).history.undo =
      recordsOf s1 (resizeCmds 2 100) := by
    rw [hcs1, hundo]
    rw [show histState.history.undo = [] from rfl, List.nil_append]
    rw [← hs1]
    rw [takeLast_cons_of_le _ (le_of_eq htail.symm)]
    exact takeLast_of_le (le_of_eq htail)
  have heta : applyAll histState (resizeCmds 1 101) =
      ⟨(applyAll histState (resizeCmds 1 101)).plan,
       (applyAll histState (resizeCmds 1 101)).selection,
       ⟨recordsOf s1 (resizeCmds 2 100),
        (applyAll histState (resizeCmds 1 101)).history.redo⟩⟩ := by
    rw [← hundo2]
  obtain ⟨sel2, hu⟩ := undoN_spec (recordsOf s1 (resizeCmds 2 100))
    (performCommand resizeCtx.env histState.plan
      (.planResizeBoundary (some ((1:ℕ) : ℚ)) none)).plan
    (applyAll histState (resizeCmds 1 101)).plan
    (applyAll histState (resizeCmds 1 101)).selection
    (applyAll histState (resizeCmds 1 101)).history.redo hch2
  rw [htail] at hu
  rw [resizeCmds_length]
  intro hbad
  rw [show (101 : Nat) = 1 + 100 from rfl, undoN_add 1 100] at hbad
  rw [heta, hu] at hbad
  have hred : ∀ (q : Plan) (sel : Selection) (rds : List HistoryRecord),
      undoN 1 (⟨q, sel, ⟨[], rds⟩⟩ : StoreState) = ⟨q, sel, ⟨[], rds⟩⟩ := fun q sel rds => rfl
  rw [hred, resize_perform_plan resizeCtx.env histState.plan _ hw1] at hbad
  have hcw := congrArg (fun p => p.canvas.width) hbad
  simp only [] at hcw
  norm_num [histState, demoPlan] at hcw

end FloorPlan
